import Mathlib

/-!
Verification of the YouTube-Comments-Classifier pipeline (Demo3.ipynb).

The notebook is a linear pandas/scikit-learn pipeline:
`data_cleaning_encoding` → `vectorizing` → `train_test_splitting` →
`model_training_random_forest` → `model_evaluation_scores` / `confusion_matrix` /
`classification_rep`.

This file gives a shallow embedding of that pipeline.  A pandas `DataFrame` is
modelled as a `Table`: a list of column names, a list of row-index labels, and a
list of rows (each row a list of `Cell`s, positionally aligned with the column
names).  Library routines invoked by the notebook (`DataFrame.dropna`,
`DataFrame.drop_duplicates`, `LabelEncoder`, `CountVectorizer`,
`train_test_split`, `RandomForestClassifier.fit`, the sklearn metric functions)
are embedded according to their documented behaviour, at the granularity the
notebook relies on; each such definition carries a comment saying which library
routine it models.  Fallible calls (pandas `KeyError`s, sklearn `ValueError`s)
return `Except String`.
-/

deriving instance DecidableEq for Except

namespace YTSpam

/-- Value stored in one cell of a table: a string, an integer, or a missing
value (pandas `NaN` / `None`). -/
inductive Cell
  | str (s : String)
  | int (z : Int)
  | null
deriving DecidableEq, Repr

/-- Shallow model of a pandas `DataFrame`: ordered column names, row-index
labels, and rows of cells positionally aligned with `cols`. -/
structure Table where
  cols : List String
  idx : List Nat
  rows : List (List Cell)
deriving DecidableEq, Repr

/-! ### Generic sorted deduplication

`numpy.unique` (used by `LabelEncoder.fit`) and `CountVectorizer`'s vocabulary
extraction both return the distinct values of a collection in ascending sorted
order.  `sortedDedup` models this.  It is parametrised by a boolean comparator
`ltB` so that the string instantiation stays kernel-computable (Lean's builtin
`String` order is iterator-based and does not reduce); the lemmas assume `ltB`
decides the ambient linear order. -/

section SortedDedup

variable {α : Type} [DecidableEq α]

/-- Insert `a` into a sorted, duplicate-free list, keeping it sorted and
duplicate-free. -/
def insertSorted (ltB : α → α → Bool) (a : α) : List α → List α
  | [] => [a]
  | x :: xs =>
    if a = x then x :: xs
    else if ltB a x then a :: x :: xs
    else x :: insertSorted ltB a xs

/-- Distinct values of `l` in ascending order: models `numpy.unique`. -/
def sortedDedup (ltB : α → α → Bool) (l : List α) : List α :=
  l.foldl (fun acc a => insertSorted ltB a acc) []

/-- Index of the first occurrence of `a` in a list (`numpy.searchsorted` on a
sorted array of distinct values containing `a` returns exactly this). -/
def idxOf (a : α) : List α → Nat
  | [] => 0
  | x :: xs => if x = a then 0 else idxOf a xs + 1

theorem mem_insertSorted (ltB : α → α → Bool) (a b : α) (l : List α) :
    b ∈ insertSorted ltB a l ↔ b = a ∨ b ∈ l := by
  induction l with
  | nil => simp [insertSorted]
  | cons x xs ih =>
    by_cases hax : a = x
    · subst hax
      rw [insertSorted, if_pos rfl]
      simp only [List.mem_cons]
      tauto
    · by_cases hlt : ltB a x
      · rw [insertSorted, if_neg hax, if_pos hlt]
        simp only [List.mem_cons]
      · rw [insertSorted, if_neg hax, if_neg hlt]
        simp only [List.mem_cons, ih]
        tauto

theorem sorted_insertSorted [LinearOrder α] (ltB : α → α → Bool)
    (hlt : ∀ a b : α, ltB a b = true ↔ a < b) (a : α) (l : List α)
    (h : l.Sorted (· < ·)) : (insertSorted ltB a l).Sorted (· < ·) := by
  induction l with
  | nil => simp [insertSorted]
  | cons x xs ih =>
    rw [List.sorted_cons] at h
    obtain ⟨hx, hxs⟩ := h
    by_cases hax : a = x
    · subst hax
      rw [insertSorted, if_pos rfl]
      exact List.sorted_cons.2 ⟨hx, hxs⟩
    · by_cases hltax : ltB a x
      · have hax' : a < x := (hlt a x).1 hltax
        rw [insertSorted, if_neg hax, if_pos hltax]
        rw [List.sorted_cons]
        refine ⟨?_, List.sorted_cons.2 ⟨hx, hxs⟩⟩
        intro b hb
        rcases List.mem_cons.1 hb with rfl | hb
        · exact hax'
        · exact hax'.trans (hx b hb)
      · have hxa : x < a := by
          rcases lt_trichotomy a x with h1 | h1 | h1
          · exact absurd ((hlt a x).2 h1) (by simpa using hltax)
          · exact absurd h1 hax
          · exact h1
        rw [insertSorted, if_neg hax, if_neg hltax, List.sorted_cons]
        refine ⟨?_, ih hxs⟩
        intro b hb
        rcases (mem_insertSorted ltB a b xs).1 hb with rfl | hb
        · exact hxa
        · exact hx b hb

theorem mem_foldl_insertSorted (ltB : α → α → Bool) (b : α) :
    ∀ (l acc : List α),
      b ∈ l.foldl (fun acc a => insertSorted ltB a acc) acc ↔ b ∈ acc ∨ b ∈ l := by
  intro l
  induction l with
  | nil => simp
  | cons x xs ih =>
    intro acc
    simp only [List.foldl_cons, ih, mem_insertSorted, List.mem_cons]
    tauto

theorem mem_sortedDedup (ltB : α → α → Bool) (b : α) (l : List α) :
    b ∈ sortedDedup ltB l ↔ b ∈ l := by
  simpa [sortedDedup] using mem_foldl_insertSorted ltB b l []

theorem sorted_sortedDedup [LinearOrder α] (ltB : α → α → Bool)
    (hlt : ∀ a b : α, ltB a b = true ↔ a < b) (l : List α) :
    (sortedDedup ltB l).Sorted (· < ·) := by
  suffices h : ∀ (l acc : List α), acc.Sorted (· < ·) →
      (l.foldl (fun acc a => insertSorted ltB a acc) acc).Sorted (· < ·) by
    exact h l [] (by simp)
  intro l
  induction l with
  | nil => intro acc h; simpa using h
  | cons x xs ih =>
    intro acc h
    exact ih _ (sorted_insertSorted ltB hlt x acc h)

theorem nodup_sortedDedup [LinearOrder α] (ltB : α → α → Bool)
    (hlt : ∀ a b : α, ltB a b = true ↔ a < b) (l : List α) :
    (sortedDedup ltB l).Nodup :=
  (sorted_sortedDedup ltB hlt l).nodup

/-- On a sorted duplicate-free list, the index of an element is the number of
elements strictly below it. -/
theorem idxOf_sorted_eq_countP [LinearOrder α] (ltB : α → α → Bool)
    (hlt : ∀ a b : α, ltB a b = true ↔ a < b) :
    ∀ (l : List α) (a : α), l.Sorted (· < ·) → a ∈ l →
      idxOf a l = l.countP (fun b => ltB b a) := by
  intro l
  induction l with
  | nil => intro a _ ha; cases ha
  | cons x xs ih =>
    intro a hs ha
    rw [List.sorted_cons] at hs
    obtain ⟨hx, hxs⟩ := hs
    by_cases hxa : x = a
    · subst hxa
      have h0 : idxOf x (x :: xs) = 0 := by simp [idxOf]
      rw [h0, List.countP_cons]
      have hxx : ltB x x = false := by
        by_contra hc
        have : x < x := (hlt x x).1 (by simpa using hc)
        exact absurd this (lt_irrefl x)
      have hrest : xs.countP (fun b => ltB b x) = 0 := by
        rw [List.countP_eq_zero]
        intro b hb
        have hxb : x < b := hx b hb
        by_contra hc
        have : b < x := (hlt b x).1 (by simpa using hc)
        exact absurd (this.trans hxb) (lt_irrefl b)
      simp [hrest, hxx]
    · have ha' : a ∈ xs := by
        rcases List.mem_cons.1 ha with rfl | h
        · exact absurd rfl hxa
        · exact h
      have hxa' : x < a := hx a ha'
      rw [List.countP_cons]
      have hB : ltB x a = true := (hlt x a).2 hxa'
      rw [idxOf, if_neg hxa, ih a hxs ha', hB]
      simp

/-- On a sorted duplicate-free list, `idxOf` recovers positions: the element at
position `i` has index `i`. -/
theorem idxOf_sorted_getElem [LinearOrder α] :
    ∀ (l : List α), l.Sorted (· < ·) → ∀ (i : Nat) (h : i < l.length),
      idxOf l[i] l = i := by
  intro l
  induction l with
  | nil => intro _ i h; cases h
  | cons x xs ih =>
    intro hs i h
    rw [List.sorted_cons] at hs
    obtain ⟨hx, hxs⟩ := hs
    match i with
    | 0 => simp [idxOf]
    | Nat.succ j =>
      have hj : j < xs.length := by simpa using h
      have hmem : xs[j] ∈ xs := List.getElem_mem hj
      have hne : x ≠ xs[j] := ne_of_lt (hx _ hmem)
      have : (x :: xs)[j + 1] = xs[j] := by simp
      rw [this]
      simp only [idxOf, if_neg hne]
      rw [ih hxs j hj]

end SortedDedup

/-! ### Concrete comparators

`intLtB` and `strLtB` are kernel-computable comparators deciding the linear
orders on `Int` and `String` (the latter via the character lists, since the
builtin iterator-based `String.ltb` does not reduce). -/

/-- Boolean comparator for `Int`. -/
def intLtB (a b : Int) : Bool := decide (a < b)

theorem intLtB_iff (a b : Int) : intLtB a b = true ↔ a < b := by
  simp [intLtB]

/-- Lexicographic comparator on character lists, mirroring Python/numpy string
comparison by code points. -/
def listLtB : List Char → List Char → Bool
  | _, [] => false
  | [], _ :: _ => true
  | a :: as, b :: bs => if a < b then true else if b < a then false else listLtB as bs

/-- Boolean comparator for `String`: lexicographic on the character data. -/
def strLtB (s t : String) : Bool := listLtB s.data t.data

theorem listLtB_iff_lex : ∀ l1 l2 : List Char, listLtB l1 l2 = true ↔ List.Lex (· < ·) l1 l2 := by
  intro l1
  induction l1 with
  | nil =>
    intro l2
    cases l2 with
    | nil => simp [listLtB]
    | cons b bs => simp only [listLtB, true_iff]; exact List.Lex.nil
  | cons a as ih =>
    intro l2
    cases l2 with
    | nil =>
      simp only [listLtB, Bool.false_eq_true, false_iff]
      intro h; cases h
    | cons b bs =>
      simp only [listLtB]
      by_cases hab : a < b
      · simp only [if_pos hab, true_iff]
        exact List.Lex.rel hab
      · by_cases hba : b < a
        · simp only [if_neg hab, if_pos hba, Bool.false_eq_true, false_iff]
          intro h
          cases h with
          | cons h => exact absurd rfl (ne_of_gt hba)
          | rel h => exact absurd h hab
        · have hEq : a = b := le_antisymm (not_lt.1 hba) (not_lt.1 hab)
          subst hEq
          simp only [if_neg hab, if_neg hba, ih bs]
          constructor
          · exact fun h => List.Lex.cons h
          · intro h
            cases h with
            | cons h => exact h
            | rel h => exact absurd h hab

theorem strLtB_iff (s t : String) : strLtB s t = true ↔ s < t := by
  rw [String.lt_iff_toList_lt]
  show listLtB s.data t.data = true ↔ List.Lex (· < ·) s.data t.data
  exact listLtB_iff_lex s.data t.data

/-! ### Basic table operations (pandas) -/

/-- Position of the first column named `c`, as pandas column lookup finds it. -/
def colPos : List String → String → Option Nat
  | [], _ => none
  | c :: cs, target => if c = target then some 0 else (colPos cs target).map (· + 1)

/-- Whether a row contains a missing value. -/
def rowHasNull (r : List Cell) : Bool := decide (Cell.null ∈ r)

/-- Models `DataFrame.dropna(inplace=True)` as a value transformation: removes
every row containing at least one missing value, keeping the surviving rows'
original index labels. -/
def dropna (t : Table) : Table :=
  let kept := (t.idx.zip t.rows).filter (fun p => !rowHasNull p.2)
  ⟨t.cols, kept.map Prod.fst, kept.map Prod.snd⟩

/-- Keep the first occurrence of each distinct row (pandas `duplicated` keeps
`keep='first'` and compares all columns, ignoring the index). `seen` is the
accumulator of row values already kept. -/
def dedupFirst : List (Nat × List Cell) → List (List Cell) → List (Nat × List Cell)
  | [], _ => []
  | p :: rest, seen =>
    if p.2 ∈ seen then dedupFirst rest seen
    else p :: dedupFirst rest (p.2 :: seen)

/-- Models `DataFrame.drop_duplicates(inplace=True)` as a value transformation:
removes exact duplicate rows (all columns equal), keeping the first instance. -/
def drop_duplicates (t : Table) : Table :=
  let kept := dedupFirst (t.idx.zip t.rows) []
  ⟨t.cols, kept.map Prod.fst, kept.map Prod.snd⟩

/-- Cell values of the column at position `i`, one per row. -/
def colVals (t : Table) (i : Nat) : List Cell :=
  t.rows.map (fun r => r.getD i Cell.null)

/-- Interpret a cell list as an all-string column, if it is one. -/
def asStrs : List Cell → Option (List String)
  | [] => some []
  | Cell.str s :: rest => (asStrs rest).map (s :: ·)
  | _ => none

/-- Interpret a cell list as an all-integer column, if it is one. -/
def asInts : List Cell → Option (List Int)
  | [] => some []
  | Cell.int z :: rest => (asInts rest).map (z :: ·)
  | _ => none

/-- Models `LabelEncoder().fit_transform` on one column: `fit` stores the
distinct values in ascending sorted order (`numpy.unique`), `transform` maps
each value to its position in that sorted array (`numpy.searchsorted`).  A
column mixing strings and integers (or containing missing values) makes
`numpy.unique`'s sort raise, hence the error case. -/
def encodeCodes (vals : List Cell) : Except String (List Nat) :=
  match asStrs vals with
  | some strs => .ok (strs.map (fun s => idxOf s (sortedDedup strLtB strs)))
  | none =>
    match asInts vals with
    | some ints => .ok (ints.map (fun z => idxOf z (sortedDedup intLtB ints)))
    | none => .error "TypeError: unorderable column values"

/-- Models `data[c] = LabelEncoder().fit_transform(data[c])`: replaces the cells
of column `c` with their integer codes; a missing column name raises. -/
def labelEncode (t : Table) (c : String) : Except String Table :=
  match colPos t.cols c with
  | none => .error ("KeyError: " ++ c)
  | some i =>
    match encodeCodes (colVals t i) with
    | .ok codes =>
      .ok ⟨t.cols, t.idx, (t.rows.zip codes).map (fun p => p.1.set i (Cell.int p.2))⟩
    | .error e => .error e

/-- Models `DataFrame.drop([c], axis=1, inplace=True)` as a value
transformation: removes every column named `c` (and the corresponding cell of
each row); raises a `KeyError` if no column has that name. -/
def dropCol (t : Table) (c : String) : Except String Table :=
  if c ∈ t.cols then
    .ok ⟨t.cols.filter (fun d => decide (d ≠ c)),
         t.idx,
         t.rows.map (fun r => ((t.cols.zip r).filter (fun p => decide (p.1 ≠ c))).map Prod.snd)⟩
  else .error ("KeyError: " ++ c)

/-- Models `DataFrame.reset_index(drop=True, inplace=True)` as a value
transformation: the index labels become `0, 1, ..., n-1`. -/
def reset_index (t : Table) : Table :=
  ⟨t.cols, List.range t.rows.length, t.rows⟩

/-! ### The cleaning/encoding stage -/

/-- Embedding of the notebook's `data_cleaning_encoding`: drop rows with
missing values, drop duplicate rows, label-encode `AUTHOR` and `VIDEO_NAME`,
drop the `DATE` and `COMMENT_ID` columns, and reset the row index.  The
`print` side effects of the original are not modelled. -/
def data_cleaning_encoding (data : Table) : Except String Table := do
  let d1 := dropna data
  let d2 := drop_duplicates d1
  let d3 ← labelEncode d2 "AUTHOR"
  let d4 ← labelEncode d3 "VIDEO_NAME"
  let d5 ← dropCol d4 "DATE"
  let d6 ← dropCol d5 "COMMENT_ID"
  pure (reset_index d6)

/-! ### The vectorizing stage -/

/-- Word characters for `CountVectorizer`'s default token pattern `\w\w+`. -/
def isWordChar (c : Char) : Bool := c.isAlphanum || c = '_'

/-- Split a character list into maximal runs of word characters.  `cur` holds
the current run, reversed. -/
def tokenRuns : List Char → List Char → List (List Char)
  | [], cur => if cur.isEmpty then [] else [cur.reverse]
  | c :: cs, cur =>
    if isWordChar c then tokenRuns cs (c :: cur)
    else if cur.isEmpty then tokenRuns cs []
    else cur.reverse :: tokenRuns cs []

/-- Models `CountVectorizer`'s default analyzer: lowercase, then extract the
maximal word-character runs of length at least two (token pattern
`(?u)\b\w\w+\b`). -/
def tokenize (s : String) : List String :=
  (tokenRuns (s.data.map Char.toLower) []).filterMap
    (fun cs => if 2 ≤ cs.length then some (String.mk cs) else none)

/-- Concatenation of a list of lists (the corpus token stream). -/
def concatAll : List (List α) → List α
  | [] => []
  | x :: xs => x ++ concatAll xs

/-- Vocabulary of a document list: the distinct tokens in ascending lexical
order, as `CountVectorizer.get_feature_names_out` returns them. -/
def vocabOf (docs : List String) : List String :=
  sortedDedup strLtB (concatAll (docs.map tokenize))

/-- Occurrence count of token `w` in document `d`. -/
def termCount (d : String) (w : String) : Nat :=
  (tokenize d).countP (fun u => decide (u = w))

/-- Embedding of the notebook's `vectorizing`: take the `CONTENT` column,
fit a `CountVectorizer` on all its values (raising sklearn's "empty
vocabulary" error when no document yields a token, and an error when the
column is missing or not string-valued, where the real code also raises),
build the count matrix as a dataframe, reset the indices of both dataframes,
and concatenate them column-wise. -/
def vectorizing (cleaned_data : Table) : Except String Table :=
  match colPos cleaned_data.cols "CONTENT" with
  | none => .error "KeyError: CONTENT"
  | some i =>
    match asStrs (colVals cleaned_data i) with
    | none => .error "AttributeError: CONTENT values are not text"
    | some docs =>
      let vocab := vocabOf docs
      if vocab.isEmpty then .error "ValueError: empty vocabulary"
      else
        let vrows := docs.map (fun d => vocab.map (fun w => Cell.int (termCount d w)))
        let c := reset_index cleaned_data
        .ok ⟨c.cols ++ vocab, c.idx, (c.rows.zip vrows).map (fun p => p.1 ++ p.2)⟩

/-! ### The splitting stage -/

/-- Number of test rows: `ceil(test_size * n_samples)` computed by sklearn's
`_validate_shuffle_split` for a float `test_size`.  Computed from the reduced
fraction's numerator and denominator so that it evaluates by kernel
reduction; `nTestOf_eq_ceil` identifies it with `⌈f * n⌉`. -/
def nTestOf (f : ℚ) (n : Nat) : Nat :=
  (f.num.toNat * n + (f.den - 1)) / f.den

/-- Linear congruential step used to derive the deterministic shuffle keys. -/
def lcg (x : Nat) : Nat := (1103515245 * x + 12345) % 2147483648

/-- Shuffle key of index `i` under `seed`. -/
def shuffleKey (seed i : Nat) : Nat := lcg (seed + 1000003 * lcg i)

/-- Models `numpy.random.RandomState(seed).permutation(n)`: a deterministic
pseudorandom permutation of `0, ..., n-1`, realised by sorting the indices by
a seeded pseudorandom key (the exact Mersenne-Twister stream is not modelled;
every property proved below depends only on this being a permutation
determined by `seed` and `n`). -/
def permOf (seed n : Nat) : List Nat :=
  List.insertionSort (fun i j => shuffleKey seed i ≤ shuffleKey seed j) (List.range n)

/-- Select the rows (and their index labels) of `t` at the given positions. -/
def selectRows (t : Table) (pos : List Nat) : Table :=
  ⟨t.cols, pos.map (fun i => t.idx.getD i 0), pos.map (fun i => t.rows.getD i [])⟩

/-- Models `data[c]`: the sub-table of all columns named `c` (pandas returns
every matching column); raises a `KeyError` when none matches. -/
def getCols (t : Table) (c : String) : Except String Table :=
  if c ∈ t.cols then
    .ok ⟨t.cols.filter (fun d => decide (d = c)),
         t.idx,
         t.rows.map (fun r => ((t.cols.zip r).filter (fun p => decide (p.1 = c))).map Prod.snd)⟩
  else .error ("KeyError: " ++ c)

/-- Models `sklearn.model_selection.train_test_split(x, y, test_size, random_state)`.
`rngGlobal` stands for the ambient global numpy RNG state, which is consulted
only when `random_state` is `none`.  Following `_validate_shuffle_split` and
`ShuffleSplit`: a float `test_size` outside `(0, 1)` raises; `n_test =
ceil(test_size * n)`; an empty resulting train or test set raises; the row
positions are permuted by the seeded RNG, the first `n_test` of the
permutation become the test set and the rest the training set. -/
def train_test_split (rngGlobal : Nat) (randomState : Option Nat) (x y : Table) (test_size : ℚ) :
    Except String (Table × Table × Table × Table) :=
  let n := x.rows.length
  if ¬(0 < test_size ∧ test_size < 1) then
    .error "ValueError: test_size should be a float in the (0, 1) range"
  else if y.rows.length ≠ n then
    .error "ValueError: inconsistent numbers of samples"
  else
    let nTest := nTestOf test_size n
    if n - nTest = 0 ∨ nTest = 0 then
      .error "ValueError: the resulting train set will be empty"
    else
      let seed := randomState.getD rngGlobal
      let p := permOf seed n
      let testPos := p.take nTest
      let trainPos := p.drop nTest
      .ok (selectRows x trainPos, selectRows x testPos, selectRows y trainPos, selectRows y testPos)

/-- Embedding of the notebook's `train_test_splitting`: drop the `CLASS` and
`CONTENT` columns to form the features, take the `CLASS` column as labels, and
split with the fixed seed 42.  `rngGlobal` is the ambient global RNG state
(irrelevant because `random_state=42` is passed). -/
def train_test_splitting (rngGlobal : Nat) (data : Table) (test_size : ℚ) :
    Except String (Table × Table × Table × Table) := do
  let x0 ← dropCol data "CLASS"
  let x ← dropCol x0 "CONTENT"
  let y ← getCols data "CLASS"
  train_test_split rngGlobal (some 42) x y test_size

/-! ### The training stage -/

/-- A fitted `RandomForestClassifier`, as far as the pipeline observes it:
its hyperparameters and the training data it was fitted to. -/
structure RFModel where
  criterion : String
  random_state : Nat
  n_estimators : Nat
  max_depth : Nat
  max_features : String
  x_fit : Table
  y_fit : Table
deriving DecidableEq, Repr

/-- Whether a feature cell survives `check_array`'s conversion to float:
integer cells do; missing cells are `NaN` (rejected by the finiteness check)
and string cells fail the float conversion. -/
def cellIsNumeric : Cell → Bool
  | Cell.int _ => true
  | _ => false

/-- Embedding of the notebook's `model_training_random_forest`:
`RandomForestClassifier(criterion='entropy', random_state=42, ...).fit(x, y)`.
Following sklearn's fit-time validation: the hyperparameters are validated
first (`n_estimators` must be a positive integer, `max_depth` a positive
integer or `None` — the notebook passes integers, so 0 is out of range — and a
string `max_features` must be `sqrt` or `log2`); then `check_X_y` raises when
the features or labels have zero rows, when the features have zero columns,
when a feature cell is a string or missing (the float conversion and the
finiteness check fail), when a label value is missing, or when the row counts
differ.  Otherwise fit returns the fitted classifier. -/
def model_training_random_forest (x_train y_train : Table)
    (n_estimators max_depth : Nat) (max_features : String) : Except String RFModel :=
  if n_estimators = 0 ∨ max_depth = 0 ∨ ¬(max_features = "sqrt" ∨ max_features = "log2") then
    .error "InvalidParameterError: invalid hyperparameter"
  else if x_train.rows.length = 0 ∨ y_train.rows.length = 0 then
    .error "ValueError: found array with 0 sample(s)"
  else if x_train.cols.length = 0 then
    .error "ValueError: found array with 0 feature(s)"
  else if ¬(∀ r ∈ x_train.rows, ∀ c ∈ r, cellIsNumeric c = true) then
    .error "ValueError: could not convert string to float"
  else if ¬(∀ r ∈ y_train.rows, ∀ c ∈ r, c ≠ Cell.null) then
    .error "ValueError: invalid label values"
  else if x_train.rows.length ≠ y_train.rows.length then
    .error "ValueError: inconsistent numbers of samples"
  else
    .ok ⟨"entropy", 42, n_estimators, max_depth, max_features, x_train, y_train⟩

/-! ### The evaluation stage

Labels are integers (`CLASS` is 0/1 in the dataset).  The sklearn metric
functions are embedded over `List Int` label collections; rationals are built
with `mkRat` so the definitions evaluate by kernel reduction. -/

/-- Number of positions where the two label lists agree. -/
def matchCount (y_true y_pred : List Int) : Nat :=
  (y_true.zip y_pred).countP (fun p => decide (p.1 = p.2))

/-- True positives for `pos` as the positive class. -/
def tpCount (y_true y_pred : List Int) (pos : Int) : Nat :=
  (y_true.zip y_pred).countP (fun p => decide (p.1 = pos ∧ p.2 = pos))

/-- Predicted positives for `pos` as the positive class. -/
def ppCount (y_pred : List Int) (pos : Int) : Nat :=
  y_pred.countP (fun z => decide (z = pos))

/-- Actual positives for `pos` as the positive class. -/
def apCount (y_true : List Int) (pos : Int) : Nat :=
  y_true.countP (fun z => decide (z = pos))

/-- Models `sklearn.metrics.accuracy_score(y_true, y_pred)`: the fraction of
exactly matching predictions; mismatched lengths or empty inputs raise. -/
def accuracy_score (y_true y_pred : List Int) : Except String ℚ :=
  if y_true.length ≠ y_pred.length then .error "ValueError: inconsistent numbers of samples"
  else if y_true.length = 0 then .error "ValueError: found array with 0 sample(s)"
  else .ok (mkRat (matchCount y_true y_pred) y_true.length)

/-- Models `sklearn.metrics.precision_score(y_true, y_pred)` with its default
`pos_label` passed explicitly: true positives over predicted positives, 0 when
there are no predicted positives (the library default `zero_division`
behaviour). -/
def precision_score (y_true y_pred : List Int) (pos : Int) : Except String ℚ :=
  if y_true.length ≠ y_pred.length then .error "ValueError: inconsistent numbers of samples"
  else if y_true.length = 0 then .error "ValueError: found array with 0 sample(s)"
  else if ppCount y_pred pos = 0 then .ok 0
  else .ok (mkRat (tpCount y_true y_pred pos) (ppCount y_pred pos))

/-- Models `sklearn.metrics.recall_score(y_true, y_pred)` with its default
`pos_label` passed explicitly: true positives over actual positives, 0 when
there are no actual positives. -/
def recall_score (y_true y_pred : List Int) (pos : Int) : Except String ℚ :=
  if y_true.length ≠ y_pred.length then .error "ValueError: inconsistent numbers of samples"
  else if y_true.length = 0 then .error "ValueError: found array with 0 sample(s)"
  else if apCount y_true pos = 0 then .ok 0
  else .ok (mkRat (tpCount y_true y_pred pos) (apCount y_true pos))

/-- Models `sklearn.metrics.f1_score(y_true, y_pred)` with its default
`pos_label` passed explicitly: `2*tp / (2*tp + fp + fn)`, 0 when that
denominator is 0 (equivalently, the harmonic mean of precision and recall). -/
def f1_score (y_true y_pred : List Int) (pos : Int) : Except String ℚ :=
  if y_true.length ≠ y_pred.length then .error "ValueError: inconsistent numbers of samples"
  else if y_true.length = 0 then .error "ValueError: found array with 0 sample(s)"
  else
    let tp := tpCount y_true y_pred pos
    let fp := ppCount y_pred pos - tp
    let fn := apCount y_true pos - tp
    if 2 * tp + fp + fn = 0 then .ok 0
    else .ok (mkRat (2 * tp) (2 * tp + fp + fn))

/-- Embedding of the notebook's `model_evaluation_scores(y_pred, y_test)`: it
calls the four sklearn metrics as `metric(y_test, y_pred)`, so `y_test` is the
true-label argument; `precision_score`, `recall_score` and `f1_score` are
called without `pos_label`, whose sklearn default is `1`. -/
def model_evaluation_scores (y_pred y_test : List Int) : Except String (ℚ × ℚ × ℚ × ℚ) := do
  let a ← accuracy_score y_test y_pred
  let p ← precision_score y_test y_pred 1
  let r ← recall_score y_test y_pred 1
  let f ← f1_score y_test y_pred 1
  pure (a, p, r, f)

/-- Labels inferred by sklearn when no `labels` argument is given: the distinct
values observed in `y_true` or `y_pred`, in ascending sorted order. -/
def observedLabels (y_true y_pred : List Int) : List Int :=
  sortedDedup intLtB (y_true ++ y_pred)

/-- Models `sklearn.metrics.confusion_matrix(y_true, y_pred)` with no `labels`
argument: a `k × k` matrix over the `k` observed labels in ascending order,
whose `(i, j)` entry counts the rows with true label `labels[i]` and predicted
label `labels[j]`; mismatched lengths or empty inputs raise. -/
def c_m (y_true y_pred : List Int) : Except String (List (List Nat)) :=
  if y_true.length ≠ y_pred.length then .error "ValueError: inconsistent numbers of samples"
  else if y_true.length = 0 then .error "ValueError: found array with 0 sample(s)"
  else
    let zs := y_true.zip y_pred
    let ls := observedLabels y_true y_pred
    .ok (ls.map (fun a => ls.map (fun b => zs.countP (fun z => decide (z.1 = a ∧ z.2 = b)))))

/-- Embedding of the notebook's `confusion_matrix(y_pred, y_test)`: it computes
`c_m(y_test, y_pred)` (true labels as rows, predictions as columns) and plots
it with display labels `['SPAM', 'NON-SPAM']`; the plotting itself is not
modelled, only the matrix displayed. -/
def confusion_matrix (y_pred y_test : List Int) : Except String (List (List Nat)) :=
  c_m y_test y_pred

/-- Models the label-to-display-name association of the notebook's
`classification_rep(y_pred, y_test)`: `classification_report(y_test, y_pred,
target_names=['SPAM', 'NON-SPAM'])` pairs the target names positionally with
the observed labels in ascending order. -/
def classification_rep_pairs (y_pred y_test : List Int) : List (Int × String) :=
  (observedLabels y_test y_pred).zip ["SPAM", "NON-SPAM"]

/-! ### In-place mutation model

The notebook's cleaning runs entirely with `inplace=True` on its argument and
returns that same object, and `vectorizing` resets its argument's index in
place.  To state these frame effects, tables live in a store of references. -/

/-- A heap of dataframes: each reference holds a table. -/
def Store := Nat → Table

/-- Overwrite the table held at reference `r`. -/
def updateStore (σ : Store) (r : Nat) (t : Table) : Store :=
  fun q => if q = r then t else σ q

/-- Effectful view of `data_cleaning_encoding(data)`: every step mutates the
dataframe at reference `r` via `inplace=True` or column assignment, and the
function returns its argument object itself.  On success the store holds the
cleaned value at `r` and the returned reference is `r`. -/
def data_cleaning_encoding_inplace (r : Nat) (σ : Store) : Except String (Nat × Store) :=
  match data_cleaning_encoding (σ r) with
  | .ok t => .ok (r, updateStore σ r t)
  | .error e => .error e

/-- Effectful view of `vectorizing(cleaned_data)`: on success the combined
table is returned as a fresh value, and the argument dataframe at `r` has had
its index reset in place by `cleaned_data.reset_index(drop=True,
inplace=True)` (the errors all occur before that statement runs). -/
def vectorizing_inplace (r : Nat) (σ : Store) : Except String (Table × Store) :=
  match vectorizing (σ r) with
  | .ok t => .ok (t, updateStore σ r (reset_index (σ r)))
  | .error e => .error e

/-! ### Lemmas about the cleaning stage -/

/-- A table free of missing values. -/
def NoNullRows (t : Table) : Prop := ∀ r ∈ t.rows, Cell.null ∉ r

theorem dropna_cols (t : Table) : (dropna t).cols = t.cols := rfl

theorem dropna_len_le (t : Table) : (dropna t).rows.length ≤ t.rows.length := by
  have hrw : (dropna t).rows =
      ((t.idx.zip t.rows).filter (fun p => !rowHasNull p.2)).map Prod.snd := rfl
  rw [hrw, List.length_map]
  calc ((t.idx.zip t.rows).filter (fun p => !rowHasNull p.2)).length
      ≤ (t.idx.zip t.rows).length := List.length_filter_le _ _
    _ ≤ t.rows.length := by rw [List.length_zip]; omega

theorem dropna_noNull (t : Table) : NoNullRows (dropna t) := by
  intro r hr
  simp only [dropna, List.mem_map] at hr
  obtain ⟨p, hp, hpr⟩ := hr
  have := List.of_mem_filter hp
  simp only [rowHasNull, Bool.not_eq_eq_eq_not, Bool.not_true, decide_eq_false_iff_not] at this
  rw [← hpr]
  exact this

theorem mem_dedupFirst : ∀ (l : List (Nat × List Cell)) (seen : List (List Cell))
    (p : Nat × List Cell), p ∈ dedupFirst l seen → p ∈ l := by
  intro l
  induction l with
  | nil => intro seen p hp; cases hp
  | cons q rest ih =>
    intro seen p hp
    rw [dedupFirst] at hp
    by_cases hq : q.2 ∈ seen
    · rw [if_pos hq] at hp
      exact List.mem_cons_of_mem q (ih seen p hp)
    · rw [if_neg hq] at hp
      rcases List.mem_cons.1 hp with rfl | hp
      · exact List.mem_cons_self _ _
      · exact List.mem_cons_of_mem q (ih _ p hp)

theorem dedupFirst_len_le : ∀ (l : List (Nat × List Cell)) (seen : List (List Cell)),
    (dedupFirst l seen).length ≤ l.length := by
  intro l
  induction l with
  | nil => intro seen; simp [dedupFirst]
  | cons q rest ih =>
    intro seen
    rw [dedupFirst]
    by_cases hq : q.2 ∈ seen
    · rw [if_pos hq]
      exact (ih seen).trans (by simp)
    · rw [if_neg hq]
      simpa using ih (q.2 :: seen)

theorem dedupFirst_nodup : ∀ (l : List (Nat × List Cell)) (seen : List (List Cell)),
    ((dedupFirst l seen).map Prod.snd).Nodup ∧ ∀ p ∈ dedupFirst l seen, p.2 ∉ seen := by
  intro l
  induction l with
  | nil => intro seen; simp [dedupFirst]
  | cons q rest ih =>
    intro seen
    rw [dedupFirst]
    by_cases hq : q.2 ∈ seen
    · rw [if_pos hq]
      exact ih seen
    · rw [if_neg hq]
      obtain ⟨ihn, ihs⟩ := ih (q.2 :: seen)
      constructor
      · rw [List.map_cons, List.nodup_cons]
        refine ⟨?_, ihn⟩
        intro hmem
        rcases List.mem_map.1 hmem with ⟨p, hp, hpq⟩
        exact (ihs p hp) (by rw [hpq]; exact List.mem_cons_self _ _)
      · intro p hp
        rcases List.mem_cons.1 hp with rfl | hp
        · exact hq
        · exact fun hc => (ihs p hp) (List.mem_cons_of_mem _ hc)

theorem drop_duplicates_cols (t : Table) : (drop_duplicates t).cols = t.cols := rfl

theorem drop_duplicates_len_le (t : Table) :
    (drop_duplicates t).rows.length ≤ t.rows.length := by
  have hrw : (drop_duplicates t).rows =
      (dedupFirst (t.idx.zip t.rows) []).map Prod.snd := rfl
  rw [hrw, List.length_map]
  calc (dedupFirst (t.idx.zip t.rows) []).length
      ≤ (t.idx.zip t.rows).length := dedupFirst_len_le _ _
    _ ≤ t.rows.length := by rw [List.length_zip]; omega

theorem drop_duplicates_rows_nodup (t : Table) : (drop_duplicates t).rows.Nodup :=
  (dedupFirst_nodup (t.idx.zip t.rows) []).1

theorem drop_duplicates_rows_subset (t : Table) (r : List Cell)
    (hr : r ∈ (drop_duplicates t).rows) : r ∈ t.rows := by
  simp only [drop_duplicates, List.mem_map] at hr
  obtain ⟨p, hp, hpr⟩ := hr
  have := mem_dedupFirst _ _ p hp
  rw [← hpr]
  exact (List.of_mem_zip this).2

theorem drop_duplicates_noNull (t : Table) (h : NoNullRows t) :
    NoNullRows (drop_duplicates t) :=
  fun r hr => h r (drop_duplicates_rows_subset t r hr)

theorem asStrs_length : ∀ (l : List Cell) (s : List String), asStrs l = some s →
    s.length = l.length := by
  intro l
  induction l with
  | nil => intro s hs; simp only [asStrs, Option.some.injEq] at hs; simp [← hs]
  | cons c rest ih =>
    intro s hs
    match c with
    | Cell.str v =>
      simp only [asStrs, Option.map_eq_some'] at hs
      obtain ⟨s0, hs0, hss⟩ := hs
      rw [← hss]
      simp [ih s0 hs0]
    | Cell.int z => simp [asStrs] at hs
    | Cell.null => simp [asStrs] at hs

theorem asInts_length : ∀ (l : List Cell) (s : List Int), asInts l = some s →
    s.length = l.length := by
  intro l
  induction l with
  | nil => intro s hs; simp only [asInts, Option.some.injEq] at hs; simp [← hs]
  | cons c rest ih =>
    intro s hs
    match c with
    | Cell.int v =>
      simp only [asInts, Option.map_eq_some'] at hs
      obtain ⟨s0, hs0, hss⟩ := hs
      rw [← hss]
      simp [ih s0 hs0]
    | Cell.str z => simp [asInts] at hs
    | Cell.null => simp [asInts] at hs

theorem encodeCodes_length (vals : List Cell) (codes : List Nat)
    (h : encodeCodes vals = .ok codes) : codes.length = vals.length := by
  rw [encodeCodes] at h
  cases hs : asStrs vals with
  | some strs =>
    rw [hs] at h
    simp only [Except.ok.injEq] at h
    rw [← h, List.length_map]
    exact asStrs_length vals strs hs
  | none =>
    rw [hs] at h
    cases hi : asInts vals with
    | some ints =>
      rw [hi] at h
      simp only [Except.ok.injEq] at h
      rw [← h, List.length_map]
      exact asInts_length vals ints hi
    | none => rw [hi] at h; cases h

theorem labelEncode_ok_elim (t : Table) (c : String) (t' : Table)
    (h : labelEncode t c = .ok t') :
    ∃ i codes, colPos t.cols c = some i ∧ encodeCodes (colVals t i) = .ok codes ∧
      t' = ⟨t.cols, t.idx, (t.rows.zip codes).map (fun p => p.1.set i (Cell.int p.2))⟩ := by
  rw [labelEncode] at h
  cases hcp : colPos t.cols c with
  | none => rw [hcp] at h; cases h
  | some i =>
    rw [hcp] at h
    dsimp only at h
    cases henc : encodeCodes (colVals t i) with
    | ok codes =>
      rw [henc] at h
      dsimp only at h
      simp only [Except.ok.injEq] at h
      exact ⟨i, codes, rfl, henc, h.symm⟩
    | error e =>
      rw [henc] at h
      dsimp only at h
      cases h

theorem labelEncode_cols (t : Table) (c : String) (t' : Table)
    (h : labelEncode t c = .ok t') : t'.cols = t.cols := by
  obtain ⟨i, codes, _, _, ht⟩ := labelEncode_ok_elim t c t' h
  rw [ht]

theorem labelEncode_len (t : Table) (c : String) (t' : Table)
    (h : labelEncode t c = .ok t') : t'.rows.length = t.rows.length := by
  obtain ⟨i, codes, _, henc, ht⟩ := labelEncode_ok_elim t c t' h
  have hlen : codes.length = t.rows.length := by
    rw [encodeCodes_length (colVals t i) codes henc, colVals, List.length_map]
  rw [ht]
  simp [List.length_zip, hlen]

theorem labelEncode_noNull (t : Table) (c : String) (t' : Table)
    (h : labelEncode t c = .ok t') (hn : NoNullRows t) : NoNullRows t' := by
  obtain ⟨i, codes, _, _, ht⟩ := labelEncode_ok_elim t c t' h
  rw [ht]
  intro r hr
  simp only [List.mem_map] at hr
  obtain ⟨p, hp, hpr⟩ := hr
  intro hnull
  rw [← hpr] at hnull
  rcases List.mem_or_eq_of_mem_set hnull with hmem | heq
  · exact hn p.1 (List.of_mem_zip hp).1 hmem
  · cases heq

theorem dropCol_ok_elim (t : Table) (c : String) (t' : Table)
    (h : dropCol t c = .ok t') :
    c ∈ t.cols ∧
      t' = ⟨t.cols.filter (fun d => decide (d ≠ c)), t.idx,
            t.rows.map (fun r => ((t.cols.zip r).filter (fun p => decide (p.1 ≠ c))).map Prod.snd)⟩ := by
  rw [dropCol] at h
  by_cases hc : c ∈ t.cols
  · rw [if_pos hc] at h
    simp only [Except.ok.injEq] at h
    exact ⟨hc, h.symm⟩
  · rw [if_neg hc] at h
    cases h

theorem dropCol_not_mem (t : Table) (c : String) (t' : Table)
    (h : dropCol t c = .ok t') : c ∉ t'.cols := by
  obtain ⟨hc, ht⟩ := dropCol_ok_elim t c t' h
  rw [ht]
  intro hmem
  have := List.of_mem_filter hmem
  simp at this

theorem dropCol_mem_of_mem (t : Table) (c d : String) (t' : Table)
    (h : dropCol t c = .ok t') (hd : d ∈ t.cols) (hdc : d ≠ c) : d ∈ t'.cols := by
  obtain ⟨hc, ht⟩ := dropCol_ok_elim t c t' h
  rw [ht]
  exact List.mem_filter.2 ⟨hd, by simpa using hdc⟩

theorem dropCol_len (t : Table) (c : String) (t' : Table)
    (h : dropCol t c = .ok t') : t'.rows.length = t.rows.length := by
  obtain ⟨hc, ht⟩ := dropCol_ok_elim t c t' h
  rw [ht]
  simp

theorem dropCol_noNull (t : Table) (c : String) (t' : Table)
    (h : dropCol t c = .ok t') (hn : NoNullRows t) : NoNullRows t' := by
  obtain ⟨hc, ht⟩ := dropCol_ok_elim t c t' h
  rw [ht]
  intro r hr
  simp only [List.mem_map] at hr
  obtain ⟨r0, hr0, hrr⟩ := hr
  intro hnull
  rw [← hrr] at hnull
  rcases List.mem_map.1 hnull with ⟨p, hp, hpn⟩
  have hpz := List.of_mem_filter hp
  have hpm := List.mem_filter.1 hp
  have : p.2 ∈ r0 := (List.of_mem_zip hpm.1).2
  rw [hpn] at this
  exact hn r0 hr0 this

theorem reset_index_cols (t : Table) : (reset_index t).cols = t.cols := rfl

theorem reset_index_rows (t : Table) : (reset_index t).rows = t.rows := rfl

theorem bind_ok {ε α β : Type} (x : α) (f : α → Except ε β) :
    (Except.ok x : Except ε α) >>= f = f x := rfl

theorem bind_error {ε α β : Type} (e : ε) (f : α → Except ε β) :
    (Except.error e : Except ε α) >>= f = Except.error e := rfl

theorem pure_eq_ok {ε α : Type} (x : α) : (pure x : Except ε α) = Except.ok x := rfl

/-- Successful cleaning decomposes into its five stages. -/
theorem dce_ok_elim (t t' : Table) (h : data_cleaning_encoding t = .ok t') :
    ∃ d3 d4 d5 d6,
      labelEncode (drop_duplicates (dropna t)) "AUTHOR" = .ok d3 ∧
      labelEncode d3 "VIDEO_NAME" = .ok d4 ∧
      dropCol d4 "DATE" = .ok d5 ∧
      dropCol d5 "COMMENT_ID" = .ok d6 ∧
      t' = reset_index d6 := by
  rw [data_cleaning_encoding] at h
  cases h3 : labelEncode (drop_duplicates (dropna t)) "AUTHOR" with
  | error e => rw [h3, bind_error] at h; cases h
  | ok d3 =>
    rw [h3, bind_ok] at h
    cases h4 : labelEncode d3 "VIDEO_NAME" with
    | error e => rw [h4, bind_error] at h; cases h
    | ok d4 =>
      rw [h4, bind_ok] at h
      cases h5 : dropCol d4 "DATE" with
      | error e => rw [h5, bind_error] at h; cases h
      | ok d5 =>
        rw [h5, bind_ok] at h
        cases h6 : dropCol d5 "COMMENT_ID" with
        | error e => rw [h6, bind_error] at h; cases h
        | ok d6 =>
          rw [h6, bind_ok, pure_eq_ok] at h
          simp only [Except.ok.injEq] at h
          exact ⟨d3, d4, d5, d6, rfl, h4, h5, h6, h.symm⟩

/-! ### Claim C1 -/

/-- Raw table whose two rows differ only in `COMMENT_ID`. -/
def c1DupRaw : Table :=
  ⟨["COMMENT_ID", "AUTHOR", "DATE", "CONTENT", "VIDEO_NAME", "CLASS"], [0, 1],
   [[.str "c1", .str "a", .str "d", .str "x", .str "v", .int 0],
    [.str "c2", .str "a", .str "d", .str "x", .str "v", .int 0]]⟩

/-- Cleaning output of `c1DupRaw`: after `COMMENT_ID` and `DATE` are dropped,
its two rows are identical. -/
def c1DupClean : Table :=
  ⟨["AUTHOR", "CONTENT", "VIDEO_NAME", "CLASS"], [0, 1],
   [[.int 0, .str "x", .int 0, .int 0],
    [.int 0, .str "x", .int 0, .int 0]]⟩

/-- C1, counterexample to the claim as stated: `data_cleaning_encoding` can
return a table containing two identical rows.  Duplicates are removed before
the `DATE` and `COMMENT_ID` columns are dropped, so two input rows differing
only in those columns become identical output rows. -/
theorem c1_duplicate_rows_counterexample :
    data_cleaning_encoding c1DupRaw = .ok c1DupClean ∧ ¬ c1DupClean.rows.Nodup :=
  ⟨by decide, by decide⟩

/-- C1 (amended): for every input table accepted by `data_cleaning_encoding`,
the output has at most the input's row count and no missing value in any cell,
and the duplicate-removal stage leaves the retained full rows pairwise
distinct (no two identical rows at the point duplicates are dropped); the
later column removals may make two output rows identical. -/
theorem c1_cleaning_shape (t u : Table) (h : data_cleaning_encoding t = .ok u) :
    u.rows.length ≤ t.rows.length ∧ (∀ r ∈ u.rows, Cell.null ∉ r) ∧
      (drop_duplicates (dropna t)).rows.Nodup := by
  obtain ⟨d3, d4, d5, d6, h3, h4, h5, h6, ht⟩ := dce_ok_elim t u h
  have hlen : u.rows.length ≤ t.rows.length := by
    rw [ht, reset_index_rows]
    rw [dropCol_len d5 "COMMENT_ID" d6 h6, dropCol_len d4 "DATE" d5 h5,
      labelEncode_len d3 "VIDEO_NAME" d4 h4,
      labelEncode_len (drop_duplicates (dropna t)) "AUTHOR" d3 h3]
    exact (drop_duplicates_len_le (dropna t)).trans (dropna_len_le t)
  have hnull : NoNullRows u := by
    have n0 : NoNullRows (dropna t) := dropna_noNull t
    have n1 : NoNullRows (drop_duplicates (dropna t)) := drop_duplicates_noNull _ n0
    have n2 : NoNullRows d3 := labelEncode_noNull _ "AUTHOR" d3 h3 n1
    have n3 : NoNullRows d4 := labelEncode_noNull d3 "VIDEO_NAME" d4 h4 n2
    have n4 : NoNullRows d5 := dropCol_noNull d4 "DATE" d5 h5 n3
    have n5 : NoNullRows d6 := dropCol_noNull d5 "COMMENT_ID" d6 h6 n4
    rw [ht]
    intro r hr
    exact n5 r hr
  exact ⟨hlen, hnull, drop_duplicates_rows_nodup (dropna t)⟩

/-- C1, witness: the amended statement evaluated on `c1DupRaw`. -/
theorem c1_cleaning_shape_witness :
    c1DupClean.rows.length ≤ c1DupRaw.rows.length ∧
      (∀ r ∈ c1DupClean.rows, Cell.null ∉ r) ∧
      (drop_duplicates (dropna c1DupRaw)).rows.Nodup :=
  c1_cleaning_shape c1DupRaw c1DupClean (by decide)

/-! ### Claim C4 -/

/-- C4 (amended): applying `data_cleaning_encoding` to a table that is already
an output of the cleaning stage does not return the table unchanged: it fails
with an error, because the `DATE` (and `COMMENT_ID`) columns it tries to drop
are no longer present. -/
theorem c4_second_cleaning_fails (raw t : Table)
    (h : data_cleaning_encoding raw = .ok t) :
    ∃ e, data_cleaning_encoding t = .error e := by
  obtain ⟨d3, d4, d5, d6, h3, h4, h5, h6, ht⟩ := dce_ok_elim raw t h
  have hdate5 : "DATE" ∉ d5.cols := dropCol_not_mem d4 "DATE" d5 h5
  have hdate6 : "DATE" ∉ d6.cols := by
    obtain ⟨hc6, ht6⟩ := dropCol_ok_elim d5 "COMMENT_ID" d6 h6
    intro hc
    rw [ht6] at hc
    exact hdate5 (List.mem_of_mem_filter hc)
  have hdateT : "DATE" ∉ t.cols := by
    rw [ht, reset_index_cols]
    exact hdate6
  rw [data_cleaning_encoding]
  cases hA : labelEncode (drop_duplicates (dropna t)) "AUTHOR" with
  | error e => exact ⟨e, bind_error e _⟩
  | ok e3 =>
    rw [bind_ok]
    cases hV : labelEncode e3 "VIDEO_NAME" with
    | error e => exact ⟨e, bind_error e _⟩
    | ok e4 =>
      rw [bind_ok]
      have hcols : e4.cols = t.cols := by
        rw [labelEncode_cols e3 "VIDEO_NAME" e4 hV,
          labelEncode_cols (drop_duplicates (dropna t)) "AUTHOR" e3 hA,
          drop_duplicates_cols, dropna_cols]
      have hdrop : dropCol e4 "DATE" = .error ("KeyError: " ++ "DATE") := by
        rw [dropCol, if_neg]
        rw [hcols]
        exact hdateT
      exact ⟨"KeyError: " ++ "DATE", by rw [hdrop, bind_error]⟩

/-- Raw table used to exhibit the failing second cleaning run. -/
def c4Raw : Table :=
  ⟨["COMMENT_ID", "AUTHOR", "DATE", "CONTENT", "VIDEO_NAME", "CLASS"], [7],
   [[.str "id0", .str "ann", .str "2024-01-01", .str "great video", .str "vid", .int 1]]⟩

/-- The cleaning output of `c4Raw`. -/
def c4Clean : Table :=
  ⟨["AUTHOR", "CONTENT", "VIDEO_NAME", "CLASS"], [0],
   [[.int 0, .str "great video", .int 0, .int 1]]⟩

/-- C4, counterexample to the claim as stated: on the already-cleaned table
`c4Clean` (the cleaning output of `c4Raw`), a second application of
`data_cleaning_encoding` does not succeed with an identical table — it raises
a `KeyError` for the absent `DATE` column. -/
theorem c4_idempotence_counterexample :
    data_cleaning_encoding c4Raw = .ok c4Clean ∧
      data_cleaning_encoding c4Clean = .error "KeyError: DATE" :=
  ⟨by decide, by decide⟩

/-- C4, witness: the amended statement evaluated on the cleaned table
`c4Clean`. -/
theorem c4_second_cleaning_fails_witness :
    ∃ e, data_cleaning_encoding c4Clean = .error e :=
  c4_second_cleaning_fails c4Raw c4Clean (by decide)

/-! ### Claim C3 -/

theorem asStrs_getD (l : List Cell) (s : List String) (h : asStrs l = some s) :
    ∀ k, k < l.length → l.getD k Cell.null = Cell.str (s.getD k "") := by
  induction l generalizing s with
  | nil => intro k hk; cases hk
  | cons c rest ih =>
    intro k hk
    match c with
    | Cell.str v =>
      simp only [asStrs, Option.map_eq_some'] at h
      obtain ⟨s0, hs0, hss⟩ := h
      match k with
      | 0 => simp [← hss]
      | Nat.succ j =>
        have hj : j < rest.length := by simpa using hk
        have := ih s0 hs0 j hj
        simpa [← hss] using this
    | Cell.int z => simp [asStrs] at h
    | Cell.null => simp [asStrs] at h

/-- The distinct values of `strs` in ascending order, counted through any
predicate, agree between `sortedDedup` and `List.dedup` (both are
duplicate-free and have the same members). -/
theorem countP_sortedDedup_eq_dedup (strs : List String) (p : String → Bool) :
    (sortedDedup strLtB strs).countP p = strs.dedup.countP p := by
  have hperm : List.Perm (sortedDedup strLtB strs) strs.dedup := by
    refine (List.perm_ext_iff_of_nodup (nodup_sortedDedup strLtB strLtB_iff strs)
      (List.nodup_dedup strs)).2 ?_
    intro a
    rw [mem_sortedDedup, List.mem_dedup]
  exact hperm.countP_eq p

/-- Encoding codes on an all-string column, explicitly. -/
theorem encodeCodes_str (vals : List Cell) (strs : List String)
    (h : asStrs vals = some strs) :
    encodeCodes vals = .ok (strs.map (fun s => idxOf s (sortedDedup strLtB strs))) := by
  rw [encodeCodes, h]

/-- Raw table whose first `AUTHOR` value is lexicographically the larger one:
first-seen order would give it code 0, sorted order gives it code 1. -/
def c3Raw : Table :=
  ⟨["COMMENT_ID", "AUTHOR", "DATE", "CONTENT", "VIDEO_NAME", "CLASS"], [0, 1],
   [[.str "c1", .str "b", .str "d1", .str "hello world", .str "v1", .int 0],
    [.str "c2", .str "a", .str "d2", .str "bye now", .str "v2", .int 1]]⟩

/-- The cleaning output of `c3Raw`. -/
def c3Out : Table :=
  ⟨["AUTHOR", "CONTENT", "VIDEO_NAME", "CLASS"], [0, 1],
   [[.int 1, .str "hello world", .int 0, .int 0],
    [.int 0, .str "bye now", .int 1, .int 1]]⟩

/-- C3, counterexample to the claim as stated: in `c3Raw` the first `AUTHOR`
value encountered scanning top to bottom is `"b"`, so first-seen order would
assign it code 0; the code actually assigned to the first row is 1 (the codes
follow ascending sort order, `"a" < "b"`). -/
theorem c3_first_seen_counterexample :
    data_cleaning_encoding c3Raw = .ok c3Out ∧
      (c3Out.rows.getD 0 []).getD 0 Cell.null = Cell.int 1 ∧
      (c3Out.rows.getD 0 []).getD 0 Cell.null ≠ Cell.int 0 :=
  ⟨by decide, by decide, by decide⟩

/-- C3 (amended): the encoding pass assigns dense integer codes by ascending
sort order of the distinct values of the column, independently per column (a
fresh encoder is fitted per column): on any all-string column, the code of the
value in row `k` is the number of distinct column values lexicographically
smaller than it, and every code `0, ..., k-1` (for `k` distinct values) is
assigned to some row. -/
theorem c3_codes_sorted_dense (t : Table) (c : String) (u : Table) (i : Nat)
    (strs : List String)
    (hi : colPos t.cols c = some i)
    (hstrs : asStrs (colVals t i) = some strs)
    (h : labelEncode t c = .ok u) :
    (∀ k, k < t.rows.length →
      (u.rows.getD k []).getD i Cell.null =
        Cell.int (strs.dedup.countP (fun w => decide (w < strs.getD k "")))) ∧
    (∀ m, m < strs.dedup.length →
      ∃ k, k < t.rows.length ∧ (u.rows.getD k []).getD i Cell.null = Cell.int m) := by
  obtain ⟨i2, codes, hi2, henc, hu⟩ := labelEncode_ok_elim t c u h
  rw [hi] at hi2
  injection hi2 with hii
  rw [← hii] at henc hu
  have hcodes : codes = strs.map (fun s => idxOf s (sortedDedup strLtB strs)) := by
    have := encodeCodes_str (colVals t i) strs hstrs
    rw [this] at henc
    exact (Except.ok.inj henc).symm
  have hslen : strs.length = t.rows.length := by
    have := asStrs_length (colVals t i) strs hstrs
    simpa [colVals] using this
  have hclen : codes.length = t.rows.length := by
    rw [hcodes, List.length_map, hslen]
  have hsorted := sorted_sortedDedup strLtB strLtB_iff strs
  -- the per-row code formula
  have hcell : ∀ k, k < t.rows.length →
      (u.rows.getD k []).getD i Cell.null =
        Cell.int (idxOf (strs.getD k "") (sortedDedup strLtB strs)) := by
    intro k hk
    have hkz : k < (t.rows.zip codes).length := by
      rw [List.length_zip, hclen]; omega
    have hrows : u.rows.getD k [] =
        ((t.rows.getD k []).set i (Cell.int (codes.getD k 0))) := by
      rw [hu]
      have hlm : k < ((t.rows.zip codes).map
          (fun p => p.1.set i (Cell.int p.2))).length := by simpa using hkz
      rw [List.getD_eq_getElem _ _ hlm]
      rw [List.getElem_map, List.getElem_zip]
      rw [List.getD_eq_getElem _ _ hk, List.getD_eq_getElem _ _ (by omega : k < codes.length)]
    have hvk : (t.rows.getD k []).getD i Cell.null = Cell.str (strs.getD k "") := by
      have h1 := asStrs_getD (colVals t i) strs hstrs k (by simpa [colVals] using hk)
      rw [colVals] at h1
      have hkm : k < (t.rows.map (fun r => r.getD i Cell.null)).length := by simpa using hk
      rw [List.getD_eq_getElem _ _ hkm, List.getElem_map] at h1
      rw [List.getD_eq_getElem _ _ hk]
      exact h1
    have hilen : i < (t.rows.getD k []).length := by
      by_contra hc
      rw [List.getD_eq_default _ _ (by omega)] at hvk
      cases hvk
    have hset : ((t.rows.getD k []).set i (Cell.int (codes.getD k 0))).getD i Cell.null =
        Cell.int (codes.getD k 0) := by
      rw [List.getD_eq_getElem _ _ (by simpa using hilen)]
      exact List.getElem_set_self (by simpa using hilen)
    rw [hrows, hset]
    have : codes.getD k 0 = idxOf (strs.getD k "") (sortedDedup strLtB strs) := by
      rw [hcodes]
      rw [List.getD_eq_getElem _ _ (by rw [List.length_map, hslen]; omega)]
      rw [List.getElem_map]
      rw [List.getD_eq_getElem _ _ (by omega : k < strs.length)]
    rw [this]
  constructor
  · intro k hk
    rw [hcell k hk]
    have hmem : strs.getD k "" ∈ strs := by
      rw [List.getD_eq_getElem _ _ (by omega : k < strs.length)]
      exact List.getElem_mem _
    have hidx : idxOf (strs.getD k "") (sortedDedup strLtB strs) =
        strs.dedup.countP (fun w => decide (w < strs.getD k "")) := by
      rw [idxOf_sorted_eq_countP strLtB strLtB_iff _ _ hsorted
        ((mem_sortedDedup strLtB _ strs).2 hmem)]
      rw [countP_sortedDedup_eq_dedup]
      refine List.countP_congr ?_
      intro w _
      rw [strLtB_iff]
      simp
    rw [hidx]
  · intro m hm
    have hlen2 : (sortedDedup strLtB strs).length = strs.dedup.length := by
      have hperm : List.Perm (sortedDedup strLtB strs) strs.dedup := by
        refine (List.perm_ext_iff_of_nodup (nodup_sortedDedup strLtB strLtB_iff strs)
          (List.nodup_dedup strs)).2 ?_
        intro a
        rw [mem_sortedDedup, List.mem_dedup]
      exact hperm.length_eq
    have hm2 : m < (sortedDedup strLtB strs).length := by omega
    have hvm : (sortedDedup strLtB strs)[m] ∈ strs :=
      (mem_sortedDedup strLtB _ strs).1 (List.getElem_mem hm2)
    obtain ⟨k, hk, hks⟩ := List.mem_iff_getElem.1 hvm
    refine ⟨k, by omega, ?_⟩
    rw [hcell k (by omega)]
    congr 1
    rw [List.getD_eq_getElem _ _ hk, hks]
    have := idxOf_sorted_getElem (sortedDedup strLtB strs) hsorted m hm2
    omega

/-- Single-column table exercising the amended C3 statement. -/
def c3Small : Table := ⟨["AUTHOR"], [0, 1], [[.str "b"], [.str "a"]]⟩

/-- Encoding output of `c3Small`. -/
def c3SmallOut : Table := ⟨["AUTHOR"], [0, 1], [[.int 1], [.int 0]]⟩

/-- C3, witness: the amended statement evaluated on `c3Small`. -/
theorem c3_codes_sorted_dense_witness :
    (∀ k, k < c3Small.rows.length →
      (c3SmallOut.rows.getD k []).getD 0 Cell.null =
        Cell.int ((["b", "a"] : List String).dedup.countP
          (fun w => decide (w < (["b", "a"] : List String).getD k "")))) ∧
    (∀ m, m < (["b", "a"] : List String).dedup.length →
      ∃ k, k < c3Small.rows.length ∧
        (c3SmallOut.rows.getD k []).getD 0 Cell.null = Cell.int m) :=
  c3_codes_sorted_dense c3Small "AUTHOR" c3SmallOut 0 ["b", "a"]
    (by decide) (by decide) (by decide)

/-! ### Claim C5 -/

theorem mem_concatAll {α : Type} (a : α) : ∀ (l : List (List α)),
    a ∈ concatAll l ↔ ∃ s ∈ l, a ∈ s := by
  intro l
  induction l with
  | nil => simp [concatAll]
  | cons x xs ih =>
    simp only [concatAll, List.mem_append, ih, List.mem_cons]
    constructor
    · rintro (h | ⟨s, hs, ha⟩)
      · exact ⟨x, Or.inl rfl, h⟩
      · exact ⟨s, Or.inr hs, ha⟩
    · rintro ⟨s, rfl | hs, ha⟩
      · exact Or.inl ha
      · exact Or.inr ⟨s, hs, ha⟩

/-- Successful vectorization decomposes into its pieces. -/
theorem vectorizing_ok_elim (t u : Table) (h : vectorizing t = .ok u) :
    ∃ i docs, colPos t.cols "CONTENT" = some i ∧ asStrs (colVals t i) = some docs ∧
      (vocabOf docs).isEmpty = false ∧
      u = ⟨t.cols ++ vocabOf docs, List.range t.rows.length,
           (t.rows.zip (docs.map (fun d => (vocabOf docs).map
             (fun w => Cell.int (termCount d w))))).map (fun p => p.1 ++ p.2)⟩ := by
  rw [vectorizing] at h
  cases hi : colPos t.cols "CONTENT" with
  | none => rw [hi] at h; cases h
  | some i =>
    rw [hi] at h
    dsimp only at h
    cases hdocs : asStrs (colVals t i) with
    | none => rw [hdocs] at h; dsimp only at h; cases h
    | some docs =>
      rw [hdocs] at h
      dsimp only at h
      by_cases hv : (vocabOf docs).isEmpty
      · rw [if_pos hv] at h; cases h
      · rw [if_neg hv] at h
        simp only [Except.ok.injEq] at h
        exact ⟨i, docs, rfl, hdocs, by simpa using hv, h.symm⟩

/-- C5: for every cleaned table accepted by `vectorizing`, the output has
exactly the input row count; its columns are the input columns followed by one
column per distinct vocabulary term observed in the `CONTENT` column, in
ascending lexical order; and each row is the input row extended with the
non-negative occurrence count of each vocabulary term in that row's text. -/
theorem c5_vectorizing_shape (t u : Table) (h : vectorizing t = .ok u) :
    u.rows.length = t.rows.length ∧
    ∃ i docs, colPos t.cols "CONTENT" = some i ∧ asStrs (colVals t i) = some docs ∧
      u.cols = t.cols ++ vocabOf docs ∧
      (vocabOf docs).Sorted (· < ·) ∧
      (∀ w, w ∈ vocabOf docs ↔ ∃ d ∈ docs, w ∈ tokenize d) ∧
      (∀ k, k < t.rows.length →
        u.rows.getD k [] = (t.rows.getD k []) ++
          (vocabOf docs).map (fun w => Cell.int (termCount (docs.getD k "") w))) := by
  obtain ⟨i, docs, hi, hdocs, hne, hu⟩ := vectorizing_ok_elim t u h
  have hdlen : docs.length = t.rows.length := by
    have := asStrs_length (colVals t i) docs hdocs
    simpa [colVals] using this
  have hvlen : (docs.map (fun d => (vocabOf docs).map
      (fun w => Cell.int (termCount d w)))).length = t.rows.length := by
    rw [List.length_map, hdlen]
  refine ⟨?_, i, docs, hi, hdocs, ?_, ?_, ?_, ?_⟩
  · rw [hu]
    simp [List.length_zip, hvlen]
  · rw [hu]
  · exact sorted_sortedDedup strLtB strLtB_iff _
  · intro w
    rw [vocabOf, mem_sortedDedup, mem_concatAll]
    constructor
    · rintro ⟨ts, hts, hw⟩
      obtain ⟨d, hd, rfl⟩ := List.mem_map.1 hts
      exact ⟨d, hd, hw⟩
    · rintro ⟨d, hd, hw⟩
      exact ⟨tokenize d, List.mem_map.2 ⟨d, hd, rfl⟩, hw⟩
  · intro k hk
    rw [hu]
    have hkz : k < (t.rows.zip (docs.map (fun d => (vocabOf docs).map
        (fun w => Cell.int (termCount d w))))).length := by
      rw [List.length_zip, hvlen]; omega
    have hkm : k < ((t.rows.zip (docs.map (fun d => (vocabOf docs).map
        (fun w => Cell.int (termCount d w))))).map (fun p => p.1 ++ p.2)).length := by
      simpa using hkz
    rw [List.getD_eq_getElem _ _ hkm, List.getElem_map, List.getElem_zip]
    rw [List.getD_eq_getElem _ _ hk]
    have hkd : k < docs.length := by omega
    rw [List.getElem_map]
    rw [List.getD_eq_getElem _ _ hkd]

/-- Cleaned table exercising C5. -/
def c5In : Table :=
  ⟨["AUTHOR", "CONTENT", "VIDEO_NAME", "CLASS"], [0, 1],
   [[.int 0, .str "Bb aa", .int 0, .int 0],
    [.int 1, .str "aa cc aa", .int 1, .int 1]]⟩

/-- Vectorizing output of `c5In`: vocabulary `aa, bb, cc` in ascending order,
with per-row occurrence counts appended. -/
def c5Out : Table :=
  ⟨["AUTHOR", "CONTENT", "VIDEO_NAME", "CLASS", "aa", "bb", "cc"], [0, 1],
   [[.int 0, .str "Bb aa", .int 0, .int 0, .int 1, .int 1, .int 0],
    [.int 1, .str "aa cc aa", .int 1, .int 1, .int 2, .int 0, .int 1]]⟩

/-- C5, witness: the statement evaluated on `c5In`. -/
theorem c5_vectorizing_shape_witness :
    c5Out.rows.length = c5In.rows.length ∧
    ∃ i docs, colPos c5In.cols "CONTENT" = some i ∧ asStrs (colVals c5In i) = some docs ∧
      c5Out.cols = c5In.cols ++ vocabOf docs ∧
      (vocabOf docs).Sorted (· < ·) ∧
      (∀ w, w ∈ vocabOf docs ↔ ∃ d ∈ docs, w ∈ tokenize d) ∧
      (∀ k, k < c5In.rows.length →
        c5Out.rows.getD k [] = (c5In.rows.getD k []) ++
          (vocabOf docs).map (fun w => Cell.int (termCount (docs.getD k "") w))) :=
  c5_vectorizing_shape c5In c5Out (by decide)

/-! ### Claims C2 and C6 -/

theorem permOf_perm (seed n : Nat) : List.Perm (permOf seed n) (List.range n) :=
  List.perm_insertionSort _ _

theorem permOf_nodup (seed n : Nat) : (permOf seed n).Nodup :=
  (permOf_perm seed n).symm.nodup (List.nodup_range n)

theorem permOf_length (seed n : Nat) : (permOf seed n).length = n := by
  simpa using (permOf_perm seed n).length_eq

theorem map_getD_range (l : List Nat) (n : Nat) (hl : l.length = n) :
    (List.range n).map (fun i => l.getD i 0) = l := by
  apply List.ext_getElem (by simp [hl])
  intro i h1 h2
  simp only [List.getElem_map, List.getElem_range]
  rw [List.getD_eq_getElem _ _ (by omega)]

/-- The sklearn test-set size `ceil(test_size * n)`, as computed by `nTestOf`,
is the ceiling of the exact rational product. -/
theorem nTestOf_eq_ceil (f : ℚ) (hf : 0 < f) (n : Nat) :
    (nTestOf f n : ℤ) = ⌈f * (n : ℚ)⌉ := by
  have hd : 0 < f.den := f.den_pos
  have hnum : 0 < f.num := Rat.num_pos.2 hf
  rw [nTestOf]
  set a := f.num.toNat with ha
  set d := f.den with hdd
  set M := a * n with hM
  set q := (M + (d - 1)) / d with hq
  have hdm := Nat.div_add_mod (M + (d - 1)) d
  rw [← hq] at hdm
  have hmod : (M + (d - 1)) % d < d := Nat.mod_lt _ hd
  have fact1 : M ≤ d * q := by omega
  have fact2 : d * q < M + d := by omega
  have hfn : f * (n : ℚ) = (M : ℚ) / (d : ℚ) := by
    have hz : (a : ℤ) = f.num := Int.toNat_of_nonneg hnum.le
    have hfnum : (f.num : ℚ) = (a : ℚ) := by
      rw [← hz]
      push_cast
      ring
    rw [← Rat.num_div_den f, hfnum, hM]
    push_cast
    rw [hdd]
    ring
  have hdq : (0:ℚ) < (d:ℚ) := by exact_mod_cast hd
  have h1Q : ((M:ℚ)) ≤ (d:ℚ) * (q:ℚ) := by exact_mod_cast fact1
  have h2Q : (d:ℚ) * (q:ℚ) < (M:ℚ) + (d:ℚ) := by exact_mod_cast fact2
  rw [hfn]
  symm
  rw [Int.ceil_eq_iff]
  constructor
  · rw [lt_div_iff₀ hdq]
    push_cast
    nlinarith
  · rw [div_le_iff₀ hdq]
    push_cast
    linarith

/-- The ceiling of a rational differs from its standard rounding by at most 1. -/
theorem ceil_sub_round_abs_le_one (x : ℚ) : |⌈x⌉ - round x| ≤ 1 := by
  have h1 : ⌊x⌋ ≤ round x := by
    rw [round_eq]
    exact Int.floor_mono (by linarith)
  have h3 : ⌊x + 1⌋ = ⌊x⌋ + 1 := by exact_mod_cast Int.floor_add_one x
  have h2 : round x ≤ ⌊x⌋ + 1 := by
    rw [round_eq]
    have := Int.floor_mono (show x + 1/2 ≤ x + 1 by linarith)
    omega
  have h4 : ⌈x⌉ ≤ ⌊x⌋ + 1 := Int.ceil_le_floor_add_one x
  have h5 : ⌊x⌋ ≤ ⌈x⌉ := Int.floor_le_ceil x
  rw [abs_le]
  omega

theorem selectRows_rows_len (t : Table) (pos : List Nat) :
    (selectRows t pos).rows.length = pos.length := by simp [selectRows]

theorem dropCol_idx (t : Table) (c : String) (u : Table) (h : dropCol t c = .ok u) :
    u.idx = t.idx := by
  obtain ⟨_, ht⟩ := dropCol_ok_elim t c u h
  rw [ht]

theorem getCols_idx (t : Table) (c : String) (u : Table) (h : getCols t c = .ok u) :
    u.idx = t.idx := by
  rw [getCols] at h
  by_cases hc : c ∈ t.cols
  · rw [if_pos hc] at h
    simp only [Except.ok.injEq] at h
    rw [← h]
  · rw [if_neg hc] at h
    cases h

/-- A successful `train_test_splitting` call decomposes into the feature/label
extraction and the seeded permutation split. -/
theorem tts_ok_elim (g : Nat) (data : Table) (f : ℚ) (xtr xte ytr yte : Table)
    (h : train_test_splitting g data f = .ok (xtr, xte, ytr, yte)) :
    ∃ x0 x y, dropCol data "CLASS" = .ok x0 ∧ dropCol x0 "CONTENT" = .ok x ∧
      getCols data "CLASS" = .ok y ∧
      (0 < f ∧ f < 1) ∧ y.rows.length = x.rows.length ∧
      nTestOf f x.rows.length ≠ 0 ∧ x.rows.length - nTestOf f x.rows.length ≠ 0 ∧
      xtr = selectRows x ((permOf 42 x.rows.length).drop (nTestOf f x.rows.length)) ∧
      xte = selectRows x ((permOf 42 x.rows.length).take (nTestOf f x.rows.length)) ∧
      ytr = selectRows y ((permOf 42 x.rows.length).drop (nTestOf f x.rows.length)) ∧
      yte = selectRows y ((permOf 42 x.rows.length).take (nTestOf f x.rows.length)) := by
  rw [train_test_splitting] at h
  cases h0 : dropCol data "CLASS" with
  | error e => rw [h0, bind_error] at h; cases h
  | ok x0 =>
    rw [h0, bind_ok] at h
    cases h1 : dropCol x0 "CONTENT" with
    | error e => rw [h1, bind_error] at h; cases h
    | ok x =>
      rw [h1, bind_ok] at h
      cases h2 : getCols data "CLASS" with
      | error e => rw [h2, bind_error] at h; cases h
      | ok y =>
        rw [h2, bind_ok] at h
        rw [train_test_split] at h
        by_cases hf : 0 < f ∧ f < 1
        · rw [if_neg (not_not_intro hf)] at h
          by_cases hy : y.rows.length = x.rows.length
          · rw [if_neg (not_not_intro hy)] at h
            by_cases hz : x.rows.length - nTestOf f x.rows.length = 0 ∨ nTestOf f x.rows.length = 0
            · rw [if_pos hz] at h; cases h
            · rw [if_neg hz] at h
              simp only [Option.getD_some, Except.ok.injEq, Prod.mk.injEq] at h
              obtain ⟨hxtr, hxte, hytr, hyte⟩ := h
              push_neg at hz
              exact ⟨x0, x, y, rfl, h1, rfl, hf, hy, hz.2, hz.1,
                hxtr.symm, hxte.symm, hytr.symm, hyte.symm⟩
          · rw [if_pos hy] at h; cases h
        · rw [if_pos hf] at h; cases h

/-- C2: for every table accepted by `train_test_splitting` (with
duplicate-free row-index labels, as the pipeline guarantees by resetting
them), the four returned collections partition the input rows: the train and
test index sets are disjoint, together they are a permutation of the input
index labels, the row counts sum to the input row count, the labels stay
paired with the features, and the test row count is `⌈f·N⌉`, which is within 1
of `round(f·N)`. -/
theorem c2_split_partition (g : Nat) (data : Table) (f : ℚ) (xtr xte ytr yte : Table)
    (h : train_test_splitting g data f = .ok (xtr, xte, ytr, yte))
    (hnd : data.idx.Nodup) (hlen : data.idx.length = data.rows.length) :
    xtr.rows.length + xte.rows.length = data.rows.length ∧
    List.Perm (xtr.idx ++ xte.idx) data.idx ∧
    xtr.idx.Disjoint xte.idx ∧
    ytr.idx = xtr.idx ∧ yte.idx = xte.idx ∧
    (xte.rows.length : ℤ) = ⌈f * (data.rows.length : ℚ)⌉ ∧
    |(xte.rows.length : ℤ) - round (f * (data.rows.length : ℚ))| ≤ 1 := by
  obtain ⟨x0, x, y, h0, h1, h2, hf, hy, hT0, hTr0, hxtr, hxte, hytr, hyte⟩ :=
    tts_ok_elim g data f xtr xte ytr yte h
  have hxidx : x.idx = data.idx := by
    rw [dropCol_idx x0 "CONTENT" x h1, dropCol_idx data "CLASS" x0 h0]
  have hyidx : y.idx = data.idx := getCols_idx data "CLASS" y h2
  have hxn : x.rows.length = data.rows.length := by
    rw [dropCol_len x0 "CONTENT" x h1, dropCol_len data "CLASS" x0 h0]
  set n := x.rows.length with hn
  set nT := nTestOf f n with hnT
  have hTlt : nT < n := by omega
  have hplen : (permOf 42 n).length = n := permOf_length 42 n
  have htake : ((permOf 42 n).take nT).length = nT := by
    rw [List.length_take, hplen]
    omega
  have hdrop : ((permOf 42 n).drop nT).length = n - nT := by
    rw [List.length_drop, hplen]
  have hidxlen : data.idx.length = n := by omega
  have happ : List.Perm (((permOf 42 n).drop nT) ++ ((permOf 42 n).take nT))
      (List.range n) := by
    have e1 : List.Perm (((permOf 42 n).drop nT) ++ ((permOf 42 n).take nT))
        (((permOf 42 n).take nT) ++ ((permOf 42 n).drop nT)) := List.perm_append_comm
    have e2 : ((permOf 42 n).take nT) ++ ((permOf 42 n).drop nT) = permOf 42 n :=
      List.take_append_drop nT (permOf 42 n)
    rw [e2] at e1
    exact e1.trans (permOf_perm 42 n)
  refine ⟨?_, ?_, ?_, ?_, ?_, ?_, ?_⟩
  · rw [hxtr, hxte, selectRows_rows_len, selectRows_rows_len, htake, hdrop]
    omega
  · rw [hxtr, hxte]
    show List.Perm ((((permOf 42 n).drop nT).map (fun i => x.idx.getD i 0)) ++
      (((permOf 42 n).take nT).map (fun i => x.idx.getD i 0))) data.idx
    rw [← List.map_append, hxidx]
    have := happ.map (fun i => data.idx.getD i 0)
    rw [map_getD_range data.idx n hidxlen] at this
    exact this
  · rw [hxtr, hxte]
    intro a ha1 ha2
    simp only [selectRows, List.mem_map] at ha1 ha2
    obtain ⟨i, hi, hgi⟩ := ha1
    obtain ⟨j, hj, hgj⟩ := ha2
    have hin : i < n := by
      have : i ∈ permOf 42 n := List.mem_of_mem_drop hi
      rw [(permOf_perm 42 n).mem_iff, List.mem_range] at this
      exact this
    have hjn : j < n := by
      have : j ∈ permOf 42 n := List.mem_of_mem_take hj
      rw [(permOf_perm 42 n).mem_iff, List.mem_range] at this
      exact this
    have hij : i = j := by
      rw [hxidx] at hgi hgj
      have hgij : data.idx.getD i 0 = data.idx.getD j 0 := by rw [hgi, hgj]
      have e1 := List.getD_eq_getElem data.idx 0 (show i < data.idx.length by omega)
      have e2 := List.getD_eq_getElem data.idx 0 (show j < data.idx.length by omega)
      rw [e1, e2] at hgij
      exact (List.Nodup.getElem_inj_iff hnd).1 hgij
    subst hij
    exact (List.disjoint_take_drop (permOf_nodup 42 n) (le_refl nT)) hj hi
  · rw [hxtr, hytr]
    simp [selectRows, hxidx, hyidx]
  · rw [hxte, hyte]
    simp [selectRows, hxidx, hyidx]
  · rw [hxte, selectRows_rows_len, htake, ← hxn]
    exact nTestOf_eq_ceil f hf.1 n
  · rw [hxte, selectRows_rows_len, htake, ← hxn]
    rw [nTestOf_eq_ceil f hf.1 n]
    exact ceil_sub_round_abs_le_one _

/-- Input table exercising C2. -/
def c2In : Table :=
  ⟨["CLASS", "CONTENT", "F"], [0, 1, 2, 3, 4],
   [[.int 0, .str "a", .int 10], [.int 1, .str "b", .int 11], [.int 0, .str "c", .int 12],
    [.int 1, .str "d", .int 13], [.int 0, .str "e", .int 14]]⟩

/-- Training features of the split of `c2In`. -/
def c2Xtr : Table := ⟨["F"], [2, 1, 0], [[.int 12], [.int 11], [.int 10]]⟩

/-- Test features of the split of `c2In`. -/
def c2Xte : Table := ⟨["F"], [4, 3], [[.int 14], [.int 13]]⟩

/-- Training labels of the split of `c2In`. -/
def c2Ytr : Table := ⟨["CLASS"], [2, 1, 0], [[.int 0], [.int 1], [.int 0]]⟩

/-- Test labels of the split of `c2In`. -/
def c2Yte : Table := ⟨["CLASS"], [4, 3], [[.int 0], [.int 1]]⟩

/-- C2, witness: the statement evaluated on the 5-row table `c2In` with the
default held-out fraction 3/10. -/
theorem c2_split_partition_witness :
    c2Xtr.rows.length + c2Xte.rows.length = c2In.rows.length ∧
    List.Perm (c2Xtr.idx ++ c2Xte.idx) c2In.idx ∧
    c2Xtr.idx.Disjoint c2Xte.idx ∧
    c2Ytr.idx = c2Xtr.idx ∧ c2Yte.idx = c2Xte.idx ∧
    (c2Xte.rows.length : ℤ) = ⌈(mkRat 3 10) * (c2In.rows.length : ℚ)⌉ ∧
    |(c2Xte.rows.length : ℤ) - round ((mkRat 3 10) * (c2In.rows.length : ℚ))| ≤ 1 :=
  c2_split_partition 0 c2In (mkRat 3 10) c2Xtr c2Xte c2Ytr c2Yte
    (by decide) (by decide) (by decide)

/-- C6: two runs of `train_test_splitting` on the same table, in the same row
order and with the same held-out fraction, return identical outputs whatever
the ambient global RNG states are: since `random_state=42` is passed, the
seeded permutation depends only on the fixed seed and the row count, so the
ambient randomness `g1`/`g2` is never consulted. -/
theorem c6_split_reproducible (g1 g2 : Nat) (data : Table) (f : ℚ) :
    train_test_splitting g1 data f = train_test_splitting g2 data f := rfl

/-! ### Claim C7 -/

/-- Training-feature table for C7. -/
def c7X : Table := ⟨["F"], [0, 1], [[.int 3], [.int 4]]⟩

/-- Training-label table for C7. -/
def c7Y : Table := ⟨["CLASS"], [0, 1], [[.int 1], [.int 0]]⟩

/-- Non-empty feature table of the right length containing a string cell,
which makes `fit`'s float conversion raise. -/
def c7BadX : Table := ⟨["F"], [0, 1], [[.str "spam"], [.int 4]]⟩

/-- C7, counterexample to the claim as stated: "for non-empty, equal-length
inputs it returns a fitted classifier" is false.  With non-empty,
equal-length inputs, fit still raises on an out-of-range hyperparameter
(`n_estimators = 0`) and on a string feature cell (the conversion to float
fails). -/
theorem c7_nonempty_inputs_counterexample :
    c7X.rows.length ≠ 0 ∧ c7Y.rows.length ≠ 0 ∧ c7X.rows.length = c7Y.rows.length ∧
    model_training_random_forest c7X c7Y 0 20 "sqrt" =
      .error "InvalidParameterError: invalid hyperparameter" ∧
    c7BadX.rows.length ≠ 0 ∧ c7BadX.rows.length = c7Y.rows.length ∧
    model_training_random_forest c7BadX c7Y 160 20 "sqrt" =
      .error "ValueError: could not convert string to float" :=
  ⟨by decide, by decide, by decide, by decide, by decide, by decide, by decide⟩

/-- C7 (amended): fitting fails fast exactly when the features or labels are
empty or their row counts differ, or when one of fit's other validations
fails: the features have no columns, a feature cell is non-numeric (a string
or a missing value), a label value is missing, or a hyperparameter is out of
range (`n_estimators = 0`, `max_depth = 0`, or a `max_features` string other
than `sqrt`/`log2`).  When none of these hold, it returns the fitted
classifier (entropy criterion, seed 42, the given hyperparameters, fitted to
the given data). -/
theorem c7_fit_fails_fast (x y : Table) (ne nd : Nat) (mf : String) :
    ((∃ e, model_training_random_forest x y ne nd mf = .error e) ↔
      (ne = 0 ∨ nd = 0 ∨ ¬(mf = "sqrt" ∨ mf = "log2") ∨
       x.rows.length = 0 ∨ y.rows.length = 0 ∨ x.cols.length = 0 ∨
       ¬(∀ r ∈ x.rows, ∀ c ∈ r, cellIsNumeric c = true) ∨
       ¬(∀ r ∈ y.rows, ∀ c ∈ r, c ≠ Cell.null) ∨
       x.rows.length ≠ y.rows.length)) ∧
    (ne ≠ 0 → nd ≠ 0 → (mf = "sqrt" ∨ mf = "log2") →
      x.rows.length ≠ 0 → y.rows.length ≠ 0 → x.cols.length ≠ 0 →
      (∀ r ∈ x.rows, ∀ c ∈ r, cellIsNumeric c = true) →
      (∀ r ∈ y.rows, ∀ c ∈ r, c ≠ Cell.null) →
      x.rows.length = y.rows.length →
      model_training_random_forest x y ne nd mf =
        .ok ⟨"entropy", 42, ne, nd, mf, x, y⟩) := by
  have hok : ∀ (h1 : ¬(ne = 0 ∨ nd = 0 ∨ ¬(mf = "sqrt" ∨ mf = "log2")))
      (h2 : ¬(x.rows.length = 0 ∨ y.rows.length = 0))
      (h3 : ¬(x.cols.length = 0))
      (h4 : ∀ r ∈ x.rows, ∀ c ∈ r, cellIsNumeric c = true)
      (h5 : ∀ r ∈ y.rows, ∀ c ∈ r, c ≠ Cell.null)
      (h6 : x.rows.length = y.rows.length),
      model_training_random_forest x y ne nd mf =
        .ok ⟨"entropy", 42, ne, nd, mf, x, y⟩ := by
    intro h1 h2 h3 h4 h5 h6
    rw [model_training_random_forest, if_neg h1, if_neg h2, if_neg h3,
      if_neg (not_not_intro h4), if_neg (not_not_intro h5), if_neg (not_not_intro h6)]
  constructor
  · constructor
    · rintro ⟨e, he⟩
      by_contra hno
      push_neg at hno
      obtain ⟨g1, g2, g3, g4, g5, g6, g7, g8, g9⟩ := hno
      rw [hok (by push_neg; exact ⟨g1, g2, g3⟩) (by push_neg; exact ⟨g4, g5⟩)
        g6 g7 g8 g9] at he
      cases he
    · intro hbad
      rw [model_training_random_forest]
      by_cases q1 : ne = 0 ∨ nd = 0 ∨ ¬(mf = "sqrt" ∨ mf = "log2")
      · rw [if_pos q1]; exact ⟨_, rfl⟩
      · rw [if_neg q1]
        by_cases q2 : x.rows.length = 0 ∨ y.rows.length = 0
        · rw [if_pos q2]; exact ⟨_, rfl⟩
        · rw [if_neg q2]
          by_cases q3 : x.cols.length = 0
          · rw [if_pos q3]; exact ⟨_, rfl⟩
          · rw [if_neg q3]
            by_cases q4 : ∀ r ∈ x.rows, ∀ c ∈ r, cellIsNumeric c = true
            · rw [if_neg (not_not_intro q4)]
              by_cases q5 : ∀ r ∈ y.rows, ∀ c ∈ r, c ≠ Cell.null
              · rw [if_neg (not_not_intro q5)]
                by_cases q6 : x.rows.length = y.rows.length
                · exfalso
                  push_neg at q1 q2
                  tauto
                · rw [if_pos q6]; exact ⟨_, rfl⟩
              · rw [if_pos q5]; exact ⟨_, rfl⟩
            · rw [if_pos q4]; exact ⟨_, rfl⟩
  · intro hne hnd hmf hx0 hy0 hc0 hnum hlab hlen
    exact hok (by push_neg; exact ⟨hne, hnd, hmf⟩) (by push_neg; exact ⟨hx0, hy0⟩)
      hc0 hnum hlab hlen

/-- C7, witness: the amended statement evaluated at the notebook's
hyperparameters (160 trees, depth 20, square-root feature count) on a 2-row
numeric training set. -/
theorem c7_fit_fails_fast_witness :
    ((∃ e, model_training_random_forest c7X c7Y 160 20 "sqrt" = .error e) ↔
      ((160 : Nat) = 0 ∨ (20 : Nat) = 0 ∨ ¬(("sqrt" : String) = "sqrt" ∨ ("sqrt" : String) = "log2") ∨
       c7X.rows.length = 0 ∨ c7Y.rows.length = 0 ∨ c7X.cols.length = 0 ∨
       ¬(∀ r ∈ c7X.rows, ∀ c ∈ r, cellIsNumeric c = true) ∨
       ¬(∀ r ∈ c7Y.rows, ∀ c ∈ r, c ≠ Cell.null) ∨
       c7X.rows.length ≠ c7Y.rows.length)) ∧
    ((160 : Nat) ≠ 0 → (20 : Nat) ≠ 0 → (("sqrt" : String) = "sqrt" ∨ ("sqrt" : String) = "log2") →
      c7X.rows.length ≠ 0 → c7Y.rows.length ≠ 0 → c7X.cols.length ≠ 0 →
      (∀ r ∈ c7X.rows, ∀ c ∈ r, cellIsNumeric c = true) →
      (∀ r ∈ c7Y.rows, ∀ c ∈ r, c ≠ Cell.null) →
      c7X.rows.length = c7Y.rows.length →
      model_training_random_forest c7X c7Y 160 20 "sqrt" =
        .ok ⟨"entropy", 42, 160, 20, "sqrt", c7X, c7Y⟩) :=
  c7_fit_fails_fast c7X c7Y 160 20 "sqrt"

/-! ### Claim C8 -/

/-- Counting a binary-valued projection: the counts over the two values of
`g` partition any count. -/
theorem countP_binary_split {β : Type} (g : β → Int) (P : β → Bool) :
    ∀ (zs : List β), (∀ z ∈ zs, g z = 0 ∨ g z = 1) →
      zs.countP (fun z => decide (g z = 0) && P z) +
        zs.countP (fun z => decide (g z = 1) && P z) = zs.countP P := by
  intro zs
  induction zs with
  | nil => simp
  | cons z rest ih =>
    intro h
    have hz := h z (List.mem_cons_self z rest)
    have hrest : ∀ w ∈ rest, g w = 0 ∨ g w = 1 :=
      fun w hw => h w (List.mem_cons_of_mem _ hw)
    rw [List.countP_cons, List.countP_cons, List.countP_cons, ← ih hrest]
    rcases hz with h0 | h0 <;> by_cases hP : P z <;> simp [h0, hP] <;> omega

/-- A sorted duplicate-free integer list whose members are exactly 0 and 1 is
`[0, 1]`. -/
theorem sorted_members_binary (s : List Int) (hs : s.Sorted (· < ·))
    (hsub : ∀ a ∈ s, a = 0 ∨ a = 1) (h0 : (0:Int) ∈ s) (h1 : (1:Int) ∈ s) :
    s = [0, 1] := by
  match s with
  | [] => cases h0
  | [a] =>
    have e0 : a = 0 := by
      have := List.mem_singleton.1 h0
      omega
    have e1 : a = 1 := by
      have := List.mem_singleton.1 h1
      omega
    omega
  | a :: b :: r =>
    rw [List.sorted_cons] at hs
    obtain ⟨ha, hs2⟩ := hs
    rw [List.sorted_cons] at hs2
    obtain ⟨hb, _⟩ := hs2
    have hab : a < b := ha b (List.mem_cons_self b r)
    have ha2 := hsub a (List.mem_cons_self _ _)
    have hb2 := hsub b (List.mem_cons_of_mem _ (List.mem_cons_self _ _))
    have ea : a = 0 := by omega
    have eb : b = 1 := by omega
    subst ea
    subst eb
    match r with
    | [] => rfl
    | c :: r2 =>
      have hc2 := hsub c (by simp)
      have : (1:Int) < c := hb c (List.mem_cons_self c r2)
      omega

/-- With no `labels` argument, the labels sklearn infers from binary data in
which both classes occur are exactly `[0, 1]`. -/
theorem observedLabels_binary (yt yp : List Int)
    (hsub : ∀ v ∈ yt ++ yp, v = 0 ∨ v = 1)
    (h0 : (0:Int) ∈ yt ++ yp) (h1 : (1:Int) ∈ yt ++ yp) :
    observedLabels yt yp = [0, 1] := by
  rw [observedLabels]
  refine sorted_members_binary _ (sorted_sortedDedup intLtB intLtB_iff _) ?_ ?_ ?_
  · intro a ha
    exact hsub a ((mem_sortedDedup intLtB a _).1 ha)
  · exact (mem_sortedDedup intLtB 0 _).2 h0
  · exact (mem_sortedDedup intLtB 1 _).2 h1

theorem c_m_ok_elim (yt yp : List Int) (cm : List (List Nat)) (h : c_m yt yp = .ok cm) :
    yt.length = yp.length ∧ yt.length ≠ 0 ∧
      cm = (observedLabels yt yp).map (fun a => (observedLabels yt yp).map
        (fun b => (yt.zip yp).countP (fun z => decide (z.1 = a ∧ z.2 = b)))) := by
  rw [c_m] at h
  by_cases h1 : yt.length = yp.length
  · rw [if_neg (not_not_intro h1)] at h
    by_cases h2 : yt.length = 0
    · rw [if_pos h2] at h; cases h
    · rw [if_neg h2] at h
      simp only [Except.ok.injEq] at h
      exact ⟨h1, h2, h.symm⟩
  · rw [if_pos h1] at h; cases h

theorem count_eq_countP_fst (yt yp : List Int) (a : Int) (hl : yt.length = yp.length) :
    (yt.zip yp).countP (fun z => decide (z.1 = a)) = yt.count a := by
  have hfst : (yt.zip yp).map Prod.fst = yt := List.map_fst_zip yt yp (by omega)
  conv_rhs => rw [← hfst]
  rw [List.count, List.countP_map]
  refine List.countP_congr ?_
  intro z _
  simp

theorem count_eq_countP_snd (yt yp : List Int) (b : Int) (hl : yt.length = yp.length) :
    (yt.zip yp).countP (fun z => decide (z.2 = b)) = yp.count b := by
  have hsnd : (yt.zip yp).map Prod.snd = yp := List.map_snd_zip yt yp (by omega)
  conv_rhs => rw [← hsnd]
  rw [List.count, List.countP_map]
  refine List.countP_congr ?_
  intro z _
  simp

/-- C8, counterexample to the claim as stated: when only one class occurs
among the labels, the matrix computed by `confusion_matrix` is 1×1, not 2×2
(sklearn infers the label set from the data when no `labels` argument is
passed). -/
theorem c8_one_class_counterexample :
    confusion_matrix [0] [0] = .ok [[1]] ∧ ([[1]] : List (List Nat)).length ≠ 2 :=
  ⟨by decide, by decide⟩

/-- C8 (amended): for equal-length binary label collections in which both
classes occur among the true or predicted labels, the matrix computed by
`confusion_matrix` is 2×2 with rows indexed by true label and columns by
predicted label in ascending label order (spam, label 0, before non-spam,
label 1); the four cells sum to the number of test rows, each row sum is the
count of true instances of its class, and each column sum is the count of
predicted instances of its class.  (Without the both-classes proviso the
matrix is k×k over the observed labels.) -/
theorem c8_confusion_matrix_shape (y_pred y_test : List Int) (cm : List (List Nat))
    (h : confusion_matrix y_pred y_test = .ok cm)
    (hsub : ∀ v ∈ y_test ++ y_pred, v = 0 ∨ v = 1)
    (h0 : (0:Int) ∈ y_test ++ y_pred) (h1 : (1:Int) ∈ y_test ++ y_pred) :
    cm = [[(y_test.zip y_pred).countP (fun z => decide (z.1 = 0 ∧ z.2 = 0)),
           (y_test.zip y_pred).countP (fun z => decide (z.1 = 0 ∧ z.2 = 1))],
          [(y_test.zip y_pred).countP (fun z => decide (z.1 = 1 ∧ z.2 = 0)),
           (y_test.zip y_pred).countP (fun z => decide (z.1 = 1 ∧ z.2 = 1))]] ∧
    (cm.map List.sum).sum = y_test.length ∧
    (cm.getD 0 []).sum = y_test.count 0 ∧ (cm.getD 1 []).sum = y_test.count 1 ∧
    (cm.getD 0 []).getD 0 0 + (cm.getD 1 []).getD 0 0 = y_pred.count 0 ∧
    (cm.getD 0 []).getD 1 0 + (cm.getD 1 []).getD 1 0 = y_pred.count 1 := by
  obtain ⟨hlen, hne, hcm⟩ := c_m_ok_elim y_test y_pred cm h
  rw [observedLabels_binary y_test y_pred hsub h0 h1] at hcm
  set zs := y_test.zip y_pred with hzs
  have hzsub : ∀ z ∈ zs, (z.1 = 0 ∨ z.1 = 1) ∧ (z.2 = 0 ∨ z.2 = 1) := by
    intro z hz
    have hz1 : z.1 ∈ y_test := (List.of_mem_zip hz).1
    have hz2 : z.2 ∈ y_pred := (List.of_mem_zip hz).2
    exact ⟨hsub z.1 (List.mem_append.2 (Or.inl hz1)),
      hsub z.2 (List.mem_append.2 (Or.inr hz2))⟩
  have hcm2 : cm = [[zs.countP (fun z => decide (z.1 = 0 ∧ z.2 = 0)),
      zs.countP (fun z => decide (z.1 = 0 ∧ z.2 = 1))],
     [zs.countP (fun z => decide (z.1 = 1 ∧ z.2 = 0)),
      zs.countP (fun z => decide (z.1 = 1 ∧ z.2 = 1))]] := by
    rw [hcm]
    rfl
  -- row sums: fix the true label, split over the predicted label
  have hrow : ∀ a : Int, zs.countP (fun z => decide (z.1 = a ∧ z.2 = 0)) +
      zs.countP (fun z => decide (z.1 = a ∧ z.2 = 1)) =
      zs.countP (fun z => decide (z.1 = a)) := by
    intro a
    have := countP_binary_split (fun z : Int × Int => z.2)
      (fun z => decide (z.1 = a)) zs (fun z hz => (hzsub z hz).2)
    rw [← this]
    congr 1 <;> refine List.countP_congr ?_ <;> intro z _ <;> simp [and_comm]
  -- column sums: fix the predicted label, split over the true label
  have hcol : ∀ b : Int, zs.countP (fun z => decide (z.1 = 0 ∧ z.2 = b)) +
      zs.countP (fun z => decide (z.1 = 1 ∧ z.2 = b)) =
      zs.countP (fun z => decide (z.2 = b)) := by
    intro b
    have := countP_binary_split (fun z : Int × Int => z.1)
      (fun z => decide (z.2 = b)) zs (fun z hz => (hzsub z hz).1)
    rw [← this]
    congr 1 <;> refine List.countP_congr ?_ <;> intro z _ <;> simp
  have htot : zs.countP (fun z => decide (z.1 = 0)) +
      zs.countP (fun z => decide (z.1 = 1)) = y_test.length := by
    have := countP_binary_split (fun z : Int × Int => z.1)
      (fun _ => true) zs (fun z hz => (hzsub z hz).1)
    have hlen2 : zs.countP (fun _ => true) = y_test.length := by
      rw [List.countP_true, hzs, List.length_zip]
      omega
    rw [← hlen2, ← this]
    congr 1 <;> refine List.countP_congr ?_ <;> intro z _ <;> simp
  refine ⟨hcm2, ?_, ?_, ?_, ?_, ?_⟩
  · rw [hcm2]
    simp only [List.map_cons, List.map_nil, List.sum_cons, List.sum_nil]
    rw [← htot, ← hrow 0, ← hrow 1]
    ring
  · rw [hcm2, ← count_eq_countP_fst y_test y_pred 0 hlen]
    simp only [List.getD_cons_zero, List.sum_cons, List.sum_nil]
    rw [← hrow 0]
    ring
  · rw [hcm2, ← count_eq_countP_fst y_test y_pred 1 hlen]
    simp only [List.getD_cons_succ, List.getD_cons_zero, List.sum_cons, List.sum_nil]
    rw [← hrow 1]
    ring
  · rw [hcm2, ← count_eq_countP_snd y_test y_pred 0 hlen]
    simp only [List.getD_cons_zero, List.getD_cons_succ]
    rw [← hcol 0]
  · rw [hcm2, ← count_eq_countP_snd y_test y_pred 1 hlen]
    simp only [List.getD_cons_zero, List.getD_cons_succ]
    rw [← hcol 1]

/-- C8, witness: the amended statement evaluated on a concrete 4-row test set
(`y_pred = [1,0,1,1]`, `y_test = [1,1,0,1]`). -/
theorem c8_confusion_matrix_shape_witness :
    (([[0, 1], [1, 2]] : List (List Nat)) =
      [[(([1,1,0,1] : List Int).zip ([1,0,1,1] : List Int)).countP
          (fun z => decide (z.1 = 0 ∧ z.2 = 0)),
        (([1,1,0,1] : List Int).zip ([1,0,1,1] : List Int)).countP
          (fun z => decide (z.1 = 0 ∧ z.2 = 1))],
       [(([1,1,0,1] : List Int).zip ([1,0,1,1] : List Int)).countP
          (fun z => decide (z.1 = 1 ∧ z.2 = 0)),
        (([1,1,0,1] : List Int).zip ([1,0,1,1] : List Int)).countP
          (fun z => decide (z.1 = 1 ∧ z.2 = 1))]]) ∧
    (([[0, 1], [1, 2]] : List (List Nat)).map List.sum).sum = ([1,1,0,1] : List Int).length ∧
    (([[0, 1], [1, 2]] : List (List Nat)).getD 0 []).sum = ([1,1,0,1] : List Int).count 0 ∧
    (([[0, 1], [1, 2]] : List (List Nat)).getD 1 []).sum = ([1,1,0,1] : List Int).count 1 ∧
    (([[0, 1], [1, 2]] : List (List Nat)).getD 0 []).getD 0 0 +
      (([[0, 1], [1, 2]] : List (List Nat)).getD 1 []).getD 0 0 = ([1,0,1,1] : List Int).count 0 ∧
    (([[0, 1], [1, 2]] : List (List Nat)).getD 0 []).getD 1 0 +
      (([[0, 1], [1, 2]] : List (List Nat)).getD 1 []).getD 1 0 = ([1,0,1,1] : List Int).count 1 :=
  c8_confusion_matrix_shape [1,0,1,1] [1,1,0,1] [[0, 1], [1, 2]]
    (by decide) (by decide) (by decide) (by decide)

/-! ### Claim C10 -/

theorem accuracy_score_ok_elim (yt yp : List Int) (a : ℚ)
    (h : accuracy_score yt yp = .ok a) :
    yt.length = yp.length ∧ yt.length ≠ 0 ∧ a = mkRat (matchCount yt yp) yt.length := by
  rw [accuracy_score] at h
  by_cases h1 : yt.length = yp.length
  · rw [if_neg (not_not_intro h1)] at h
    by_cases h2 : yt.length = 0
    · rw [if_pos h2] at h; cases h
    · rw [if_neg h2] at h
      exact ⟨h1, h2, (Except.ok.inj h).symm⟩
  · rw [if_pos h1] at h; cases h

theorem precision_score_ok_elim (yt yp : List Int) (pos : Int) (p : ℚ)
    (h : precision_score yt yp pos = .ok p) :
    p = (if ppCount yp pos = 0 then 0 else mkRat (tpCount yt yp pos) (ppCount yp pos)) := by
  rw [precision_score] at h
  by_cases h1 : yt.length = yp.length
  · rw [if_neg (not_not_intro h1)] at h
    by_cases h2 : yt.length = 0
    · rw [if_pos h2] at h; cases h
    · rw [if_neg h2] at h
      by_cases h3 : ppCount yp pos = 0
      · rw [if_pos h3] at h
        rw [if_pos h3]
        exact (Except.ok.inj h).symm
      · rw [if_neg h3] at h
        rw [if_neg h3]
        exact (Except.ok.inj h).symm
  · rw [if_pos h1] at h; cases h

theorem recall_score_ok_elim (yt yp : List Int) (pos : Int) (r : ℚ)
    (h : recall_score yt yp pos = .ok r) :
    r = (if apCount yt pos = 0 then 0 else mkRat (tpCount yt yp pos) (apCount yt pos)) := by
  rw [recall_score] at h
  by_cases h1 : yt.length = yp.length
  · rw [if_neg (not_not_intro h1)] at h
    by_cases h2 : yt.length = 0
    · rw [if_pos h2] at h; cases h
    · rw [if_neg h2] at h
      by_cases h3 : apCount yt pos = 0
      · rw [if_pos h3] at h
        rw [if_pos h3]
        exact (Except.ok.inj h).symm
      · rw [if_neg h3] at h
        rw [if_neg h3]
        exact (Except.ok.inj h).symm
  · rw [if_pos h1] at h; cases h

theorem f1_score_ok_elim (yt yp : List Int) (pos : Int) (f : ℚ)
    (h : f1_score yt yp pos = .ok f) :
    f = (if 2 * tpCount yt yp pos + (ppCount yp pos - tpCount yt yp pos)
          + (apCount yt pos - tpCount yt yp pos) = 0 then 0
         else mkRat (2 * tpCount yt yp pos)
           (2 * tpCount yt yp pos + (ppCount yp pos - tpCount yt yp pos)
             + (apCount yt pos - tpCount yt yp pos))) := by
  rw [f1_score] at h
  by_cases h1 : yt.length = yp.length
  · rw [if_neg (not_not_intro h1)] at h
    by_cases h2 : yt.length = 0
    · rw [if_pos h2] at h; cases h
    · rw [if_neg h2] at h
      dsimp only at h
      by_cases h3 : 2 * tpCount yt yp pos + (ppCount yp pos - tpCount yt yp pos)
          + (apCount yt pos - tpCount yt yp pos) = 0
      · rw [if_pos h3] at h
        rw [if_pos h3]
        exact (Except.ok.inj h).symm
      · rw [if_neg h3] at h
        rw [if_neg h3]
        exact (Except.ok.inj h).symm
  · rw [if_pos h1] at h; cases h

/-- C10: the scalar metrics returned by `model_evaluation_scores` use label 1
as the positive class: precision is true positives over predicted positives
and recall true positives over actual positives, both counting label 1 as
positive, F1 their harmonic mean, and accuracy the fraction of exact matches
regardless of class; and label 1 is exactly the class that the displays pair
with the name `NON-SPAM` (ascending label order against
`['SPAM', 'NON-SPAM']`). -/
theorem c10_positive_class_nonspam (y_pred y_test : List Int) (a p r f : ℚ)
    (h : model_evaluation_scores y_pred y_test = .ok (a, p, r, f))
    (hsub : ∀ v ∈ y_test ++ y_pred, v = 0 ∨ v = 1)
    (h0 : (0:Int) ∈ y_test ++ y_pred) (h1 : (1:Int) ∈ y_test ++ y_pred) :
    a = mkRat (matchCount y_test y_pred) y_test.length ∧
    p = (if ppCount y_pred 1 = 0 then 0
         else mkRat (tpCount y_test y_pred 1) (ppCount y_pred 1)) ∧
    r = (if apCount y_test 1 = 0 then 0
         else mkRat (tpCount y_test y_pred 1) (apCount y_test 1)) ∧
    f = (if 2 * tpCount y_test y_pred 1 + (ppCount y_pred 1 - tpCount y_test y_pred 1)
          + (apCount y_test 1 - tpCount y_test y_pred 1) = 0 then 0
         else mkRat (2 * tpCount y_test y_pred 1)
           (2 * tpCount y_test y_pred 1 + (ppCount y_pred 1 - tpCount y_test y_pred 1)
             + (apCount y_test 1 - tpCount y_test y_pred 1))) ∧
    classification_rep_pairs y_pred y_test = [(0, "SPAM"), (1, "NON-SPAM")] := by
  rw [model_evaluation_scores] at h
  cases hA : accuracy_score y_test y_pred with
  | error e => rw [hA, bind_error] at h; cases h
  | ok a0 =>
    rw [hA, bind_ok] at h
    cases hP : precision_score y_test y_pred 1 with
    | error e => rw [hP, bind_error] at h; cases h
    | ok p0 =>
      rw [hP, bind_ok] at h
      cases hR : recall_score y_test y_pred 1 with
      | error e => rw [hR, bind_error] at h; cases h
      | ok r0 =>
        rw [hR, bind_ok] at h
        cases hF : f1_score y_test y_pred 1 with
        | error e => rw [hF, bind_error] at h; cases h
        | ok f0 =>
          rw [hF, bind_ok, pure_eq_ok] at h
          simp only [Except.ok.injEq, Prod.mk.injEq] at h
          obtain ⟨ha, hp, hr, hf⟩ := h
          obtain ⟨_, _, ha0⟩ := accuracy_score_ok_elim y_test y_pred a0 hA
          refine ⟨?_, ?_, ?_, ?_, ?_⟩
          · rw [← ha, ha0]
          · rw [← hp, precision_score_ok_elim y_test y_pred 1 p0 hP]
          · rw [← hr, recall_score_ok_elim y_test y_pred 1 r0 hR]
          · rw [← hf, f1_score_ok_elim y_test y_pred 1 f0 hF]
          · rw [classification_rep_pairs, observedLabels_binary y_test y_pred hsub h0 h1]
            rfl

/-- C10, witness: the statement evaluated at `y_pred = [1,0,1,1]`,
`y_test = [1,1,0,1]` (accuracy 1/2, precision, recall and F1 all 2/3). -/
theorem c10_positive_class_nonspam_witness :
    mkRat 1 2 = mkRat (matchCount [1,1,0,1] [1,0,1,1]) ([1,1,0,1] : List Int).length ∧
    mkRat 2 3 = (if ppCount [1,0,1,1] 1 = 0 then 0
         else mkRat (tpCount [1,1,0,1] [1,0,1,1] 1) (ppCount [1,0,1,1] 1)) ∧
    mkRat 2 3 = (if apCount [1,1,0,1] 1 = 0 then 0
         else mkRat (tpCount [1,1,0,1] [1,0,1,1] 1) (apCount [1,1,0,1] 1)) ∧
    mkRat 2 3 = (if 2 * tpCount [1,1,0,1] [1,0,1,1] 1
          + (ppCount [1,0,1,1] 1 - tpCount [1,1,0,1] [1,0,1,1] 1)
          + (apCount [1,1,0,1] 1 - tpCount [1,1,0,1] [1,0,1,1] 1) = 0 then 0
         else mkRat (2 * tpCount [1,1,0,1] [1,0,1,1] 1)
           (2 * tpCount [1,1,0,1] [1,0,1,1] 1
             + (ppCount [1,0,1,1] 1 - tpCount [1,1,0,1] [1,0,1,1] 1)
             + (apCount [1,1,0,1] 1 - tpCount [1,1,0,1] [1,0,1,1] 1))) ∧
    classification_rep_pairs [1,0,1,1] [1,1,0,1] = [(0, "SPAM"), (1, "NON-SPAM")] :=
  c10_positive_class_nonspam [1,0,1,1] [1,1,0,1]
    (mkRat 1 2) (mkRat 2 3) (mkRat 2 3) (mkRat 2 3)
    (by decide) (by decide) (by decide) (by decide)

/-! ### Claim C9 -/

/-- C9: the cleaning stage mutates its argument in place and returns the very
same object (reference): on success the store's table at the argument
reference has been replaced by the cleaned value (the caller's original raw
table no longer exists there), every other reference is untouched, and the
returned reference is the argument itself; `vectorizing` likewise returns a
fresh combined table as a value but resets its argument's row index in
place. -/
theorem c9_inplace_mutation :
    (∀ (rf : Nat) (σ : Store) (r2 : Nat) (σ2 : Store),
      data_cleaning_encoding_inplace rf σ = .ok (r2, σ2) →
        r2 = rf ∧ data_cleaning_encoding (σ rf) = .ok (σ2 rf) ∧
        (∀ q, q ≠ rf → σ2 q = σ q)) ∧
    (∀ (rf : Nat) (σ : Store) (t : Table) (σ2 : Store),
      vectorizing_inplace rf σ = .ok (t, σ2) →
        vectorizing (σ rf) = .ok t ∧ σ2 rf = reset_index (σ rf) ∧
        (∀ q, q ≠ rf → σ2 q = σ q)) := by
  constructor
  · intro rf σ r2 σ2 h
    rw [data_cleaning_encoding_inplace] at h
    cases hc : data_cleaning_encoding (σ rf) with
    | error e => rw [hc] at h; cases h
    | ok t =>
      rw [hc] at h
      simp only [Except.ok.injEq, Prod.mk.injEq] at h
      obtain ⟨hr, hσ⟩ := h
      refine ⟨hr.symm, ?_, ?_⟩
      · rw [← hσ, hr]
        simp [updateStore]
      · intro q hq
        rw [← hσ]
        simp [updateStore, hq]
  · intro rf σ t σ2 h
    rw [vectorizing_inplace] at h
    cases hc : vectorizing (σ rf) with
    | error e => rw [hc] at h; cases h
    | ok t0 =>
      rw [hc] at h
      simp only [Except.ok.injEq, Prod.mk.injEq] at h
      obtain ⟨ht, hσ⟩ := h
      refine ⟨by rw [ht], ?_, ?_⟩
      · rw [← hσ]
        simp [updateStore]
      · intro q hq
        rw [← hσ]
        simp [updateStore, hq]

/-- Raw table held in the store for the C9 witness. -/
def c9Raw : Table :=
  ⟨["COMMENT_ID", "AUTHOR", "DATE", "CONTENT", "VIDEO_NAME", "CLASS"], [0],
   [[.str "id0", .str "ann", .str "d0", .str "nice video", .str "vid", .int 1]]⟩

/-- Cleaning output of `c9Raw`. -/
def c9Clean : Table :=
  ⟨["AUTHOR", "CONTENT", "VIDEO_NAME", "CLASS"], [0],
   [[.int 0, .str "nice video", .int 0, .int 1]]⟩

/-- A store holding `c9Raw` at every reference. -/
def c9Store : Store := fun _ => c9Raw

/-- The store after cleaning in place at reference 0. -/
def c9Store2 : Store := updateStore c9Store 0 c9Clean

/-- The store after vectorizing `c9Clean` in place at reference 0. -/
def c9StoreV : Store := fun _ => c9Clean

/-- Combined table produced by vectorizing `c9Clean`. -/
def c9Vect : Table :=
  ⟨["AUTHOR", "CONTENT", "VIDEO_NAME", "CLASS", "nice", "video"], [0],
   [[.int 0, .str "nice video", .int 0, .int 1, .int 1, .int 1]]⟩

/-- The store after the in-place index reset done by vectorizing. -/
def c9StoreV2 : Store := updateStore c9StoreV 0 (reset_index c9Clean)

/-- C9, witness: both parts of the statement evaluated on concrete stores. -/
theorem c9_inplace_mutation_witness :
    (0 = 0 ∧ data_cleaning_encoding (c9Store 0) = .ok (c9Store2 0) ∧
      (∀ q, q ≠ 0 → c9Store2 q = c9Store q)) ∧
    (vectorizing (c9StoreV 0) = .ok c9Vect ∧ c9StoreV2 0 = reset_index (c9StoreV 0) ∧
      (∀ q, q ≠ 0 → c9StoreV2 q = c9StoreV q)) := by
  constructor
  · refine c9_inplace_mutation.1 0 c9Store 0 c9Store2 ?_
    rw [data_cleaning_encoding_inplace]
    rw [show data_cleaning_encoding (c9Store 0) = .ok c9Clean from by decide]
    rfl
  · refine c9_inplace_mutation.2 0 c9StoreV c9Vect c9StoreV2 ?_
    rw [vectorizing_inplace]
    rw [show vectorizing (c9StoreV 0) = .ok c9Vect from by decide]
    rfl

end YTSpam
